import Mathlib

/-!
Verification of the schoolScheduler repository: a shallow embedding of the
MILP timetable-model builder, solver dispatch and grid decoder of
`src/api/index.py` (function `generate_schedule_from_config`, first executed
block, plus the dead adjacency-objective variant), and of the CP-SAT group
processing of `src/api/solver.py`.

Python dictionaries are modelled as insertion-ordered association lists,
`KeyError`/`TypeError` as an `Except` error type, binary MILP variables as
`Int`-valued assignments constrained to `{0,1}`, and the PuLP model as an
explicit list of linear constraints.
-/

set_option maxHeartbeats 1000000
set_option maxRecDepth 100000

namespace SchoolScheduler

/-! ## Python dictionaries as insertion-ordered association lists -/

/-- `d[k] = v` on a Python dict: update in place when the key exists
(keeping its position), else append the new pair. -/
def dictInsert {α β : Type} [DecidableEq α] (d : List (α × β)) (k : α) (v : β) :
    List (α × β) :=
  if d.any (fun kv => kv.1 = k) then
    d.map (fun kv => if kv.1 = k then (k, v) else kv)
  else d ++ [(k, v)]

/-- `d.get(k)` on a Python dict. -/
def dictLookup {α β : Type} [DecidableEq α] (d : List (α × β)) (k : α) : Option β :=
  (d.find? (fun kv => kv.1 = k)).map (fun kv => kv.2)

/-- `d.get(k, default)`. -/
def dictLookupD {α β : Type} [DecidableEq α] (d : List (α × β)) (k : α) (v₀ : β) : β :=
  (dictLookup d k).getD v₀

/-- `d.setdefault(k, []).append(v)` on a Python dict of lists. -/
def dictUpsert {α β : Type} [DecidableEq α] (d : List (α × List β)) (k : α) (v : β) :
    List (α × List β) :=
  if d.any (fun kv => kv.1 = k) then
    d.map (fun kv => if kv.1 = k then (kv.1, kv.2 ++ [v]) else kv)
  else d ++ [(k, [v])]

/-! ## Decision variables, linear constraints, assignments -/

/-- Decision variables of the MILP model: `x c s p` is
`schedule_vars[(class_id, subject, period)]`, `g i p` is
`group_vars[(g_idx, period)]`, and `yx`/`yg` are the adjacency indicator
variables of the dead maximisation variant. -/
inductive Var : Type
  | x (c : Int) (s : String) (p : Nat)
  | g (i : Nat) (p : Nat)
  | yx (c : Int) (s : String) (day k : Nat)
  | yg (i : Nat) (day k : Nat)
  deriving DecidableEq

/-- Comparison sense of a linear constraint. -/
inductive Cmp : Type
  | le
  | eq
  | ge
  deriving DecidableEq

/-- A linear constraint `Σ coeff·var  ⟨cmp⟩  rhs` as produced by
`model += lpSum(...) <op> rhs`. -/
structure LinCon : Type where
  lhs : List (Int × Var)
  cmp : Cmp
  rhs : Int
  deriving DecidableEq

/-- Value of a weighted sum of variables under an assignment. -/
def evalLin (σ : Var → Int) (ts : List (Int × Var)) : Int :=
  (ts.map (fun t => t.1 * σ t.2)).sum

/-- Whether one linear constraint holds under an assignment. -/
def conHolds (σ : Var → Int) (c : LinCon) : Prop :=
  match c.cmp with
  | Cmp.le => evalLin σ c.lhs ≤ c.rhs
  | Cmp.eq => evalLin σ c.lhs = c.rhs
  | Cmp.ge => evalLin σ c.lhs ≥ c.rhs

instance (σ : Var → Int) (c : LinCon) : Decidable (conHolds σ c) := by
  unfold conHolds; exact match c.cmp with
  | Cmp.le => inferInstanceAs (Decidable (_ ≤ _))
  | Cmp.eq => inferInstanceAs (Decidable (_ = _))
  | Cmp.ge => inferInstanceAs (Decidable (_ ≥ _))

/-- An assignment satisfies every constraint of a list. -/
def Satisfies (σ : Var → Int) (cs : List LinCon) : Prop :=
  ∀ c ∈ cs, conHolds σ c

instance (σ : Var → Int) (cs : List LinCon) : Decidable (Satisfies σ cs) :=
  List.decidableBAll _ cs

/-- All variables take value 0 or 1 (`cat=LpBinary`). -/
def Binary (σ : Var → Int) : Prop :=
  ∀ v, σ v = 0 ∨ σ v = 1

/-- Indicator assignment of a finite list of variables; used to build
concrete binary solutions. -/
def indicator (l : List Var) : Var → Int :=
  fun v => if v ∈ l then 1 else 0

/-! ## Python exceptions -/

/-- The exceptions the embedded code can raise. -/
inductive PyErr : Type
  | keyError (msg : String)
  | typeError (msg : String)
  deriving DecidableEq

/-- `str(e)` as used by the request handler's `except` branch. -/
def pyErrMsg : PyErr → String
  | PyErr.keyError m => m
  | PyErr.typeError m => m

/-- A Python `for` loop that builds a list and can raise: structural
`mapM` over `Except`. -/
def mapE {α β : Type} (f : α → Except PyErr β) : List α → Except PyErr (List β)
  | [] => Except.ok []
  | a :: l =>
    match f a with
    | Except.error e => Except.error e
    | Except.ok b =>
      match mapE f l with
      | Except.error e => Except.error e
      | Except.ok bs => Except.ok (b :: bs)

/-- A Python `for` loop that threads an accumulator and can raise:
structural `foldlM` over `Except`. -/
def foldE {α β : Type} (f : β → α → Except PyErr β) : β → List α → Except PyErr β
  | b, [] => Except.ok b
  | b, a :: l =>
    match f b a with
    | Except.error e => Except.error e
    | Except.ok b2 => foldE f b2 l

/-! ## The request record -/

/-- One entry of `subjectTeacherMappings`. -/
structure STMapping : Type where
  class_id : Int
  subject : String
  teacher : String
  deriving DecidableEq

/-- One entry of `subjectPeriodMappings`. -/
structure SPMapping : Type where
  class_id : Int
  subject : String
  periodsPerWeek : Int
  deriving DecidableEq

/-- One entry of `groupClasses` for `index.py`; a missing `selectedDays` /
`selectedSlots` key is read with default `[]` (`group.get(..., [])`). -/
structure GroupClass : Type where
  subject : String
  classes : List Int
  teacher : String
  periodsPerWeek : Int
  selectedDays : List Int
  selectedSlots : List Int
  deriving DecidableEq

/-- The parsed JSON request consumed by `generate_schedule_from_config`. -/
structure Config : Type where
  numClasses : Nat
  subjectTeacherMappings : List STMapping
  subjectPeriodMappings : List SPMapping
  groupClasses : List GroupClass
  deriving DecidableEq

/-! ## Index builder -/

/-- `{i: {} for i in range(1, num_classes + 1)}`: the outer dict with the
fixed integer keys `1..N`. -/
def initOuter (N : Nat) (β : Type) : List (Int × List β) :=
  (List.range N).map (fun i : Nat => ((i : Int) + 1, ([] : List β)))

/-- `d[c] = f(d[c])` on the outer dict: raises `KeyError` when `c` is not a
key (a class id outside `1..N`). -/
def outerUpdate {β : Type} (d : List (Int × List β)) (c : Int)
    (f : List β → List β) : Except PyErr (List (Int × List β)) :=
  if d.any (fun kv => kv.1 = c) then
    Except.ok (d.map (fun kv => if kv.1 = c then (kv.1, f kv.2) else kv))
  else Except.error (PyErr.keyError (toString c))

/-- Total variant of `outerUpdate` that skips a missing key; used to state
what the built dictionaries are when no `KeyError` occurs. -/
def outerUpdateD {β : Type} (d : List (Int × List β)) (c : Int)
    (f : List β → List β) : List (Int × List β) :=
  d.map (fun kv => if kv.1 = c then (kv.1, f kv.2) else kv)

/-- The `subjects_per_class` structure: class id → (subject → teacher). -/
def buildSPC (N : Nat) (ms : List STMapping) :
    Except PyErr (List (Int × List (String × String))) :=
  foldE
    (fun d m => outerUpdate d m.class_id (fun inner => dictInsert inner m.subject m.teacher))
    (initOuter N _) ms

/-- Total version of `buildSPC` (equal to it whenever it succeeds). -/
def buildSPCD (N : Nat) (ms : List STMapping) : List (Int × List (String × String)) :=
  ms.foldl
    (fun d m => outerUpdateD d m.class_id (fun inner => dictInsert inner m.subject m.teacher))
    (initOuter N _)

/-- The `subject_periods` structure: class id → (subject → periods). -/
def buildSPD (N : Nat) (ms : List SPMapping) :
    Except PyErr (List (Int × List (String × Int))) :=
  foldE
    (fun d m => outerUpdate d m.class_id (fun inner => dictInsert inner m.subject m.periodsPerWeek))
    (initOuter N _) ms

/-- Total version of `buildSPD`. -/
def buildSPDD (N : Nat) (ms : List SPMapping) : List (Int × List (String × Int)) :=
  ms.foldl
    (fun d m => outerUpdateD d m.class_id (fun inner => dictInsert inner m.subject m.periodsPerWeek))
    (initOuter N _)

/-- `(class_id, subject) in group_assignments`. -/
def inGroupAssignment (groups : List GroupClass) (c : Int) (s : String) : Bool :=
  groups.any (fun g => g.subject = s && g.classes.any (fun c2 => c2 = c))

/-- Whether `(c, subject, period)` is a key of `schedule_vars`, i.e. `c` is a
class key and `subject` one of its subjects. -/
def varExists (spcO : List (Int × List (String × String))) (c : Int) (s : String) : Bool :=
  match dictLookup spcO c with
  | some inner => inner.any (fun kv => kv.1 = s)
  | none => false

/-- `subject_periods[c].get(s, 0)`. -/
def demandOf (spdO : List (Int × List (String × Int))) (c : Int) (s : String) : Int :=
  dictLookupD (dictLookupD spdO c []) s 0

/-! ## Model builder: constraints of the executed block of `index.py` -/

/-- Periods per day in `index.py` is 6 and the week has 36 periods. -/
def weekPeriods : List Nat := List.range 36

/-- The periods of day `d` (0-indexed): `range(d*6, (d+1)*6)`. -/
def dayPeriods (d : Nat) : List Nat := (List.range 6).map (fun k => d * 6 + k)

/-- `PeriodReq_class{c}_{s}`: the weekly demand equality for one non-group
`(c, s)`. -/
def periodReqCon (c : Int) (s : String) (demand : Int) : LinCon :=
  ⟨weekPeriods.map (fun p => ((1 : Int), Var.x c s p)), Cmp.eq, demand⟩

/-- All `PeriodReq` constraints, in the iteration order of the source. -/
def periodReqCons (spcO : List (Int × List (String × String)))
    (spdO : List (Int × List (String × Int))) (groups : List GroupClass) : List LinCon :=
  spcO.flatMap (fun ci =>
    ci.2.flatMap (fun st =>
      if inGroupAssignment groups ci.1 st.1 then []
      else [periodReqCon ci.1 st.1 (demandOf spdO ci.1 st.1)]))

/-- Periods admissible for a group from its `selectedDays` ("all if empty"). -/
def allowedFromDays (sd : List Int) (p : Nat) : Bool :=
  if sd.isEmpty then true
  else sd.any (fun d => decide ((d - 1) * 6 ≤ (p : Int)) && decide ((p : Int) < (d - 1) * 6 + 6))

/-- Periods admissible for a group from its `selectedSlots` ("all if empty"):
`p` is a member of `{day*6 + (slot-1) | slot ∈ ss, day < 6}`. -/
def allowedFromSlots (ss : List Int) (p : Nat) : Bool :=
  if ss.isEmpty then true
  else ss.any (fun v => (List.range 6).any (fun day => decide ((p : Int) = (day : Int) * 6 + (v - 1))))

/-- The admissible period set of a group: intersection of the two filters. -/
def allowedPeriod (g : GroupClass) (p : Nat) : Bool :=
  allowedFromDays g.selectedDays p && allowedFromSlots g.selectedSlots p

/-- `GroupSlotNotAllowed_g{i}_p{p}`: `group_var == 0`. -/
def gZeroCon (i p : Nat) : LinCon :=
  ⟨[((1 : Int), Var.g i p)], Cmp.eq, 0⟩

/-- `GroupTie_class{c}_{s}_g{i}_p{p}`: `schedule_vars[(c,s,p)] == group_var`. -/
def tieCon (c : Int) (s : String) (i p : Nat) : LinCon :=
  ⟨[((1 : Int), Var.x c s p), ((-1 : Int), Var.g i p)], Cmp.eq, 0⟩

/-- `GroupPeriodRequirement_g{i}`: the group meets `periodsPerWeek` times. -/
def gSumCon (i : Nat) (n : Int) : LinCon :=
  ⟨weekPeriods.map (fun p => ((1 : Int), Var.g i p)), Cmp.eq, n⟩

/-- The tie constraints of one group at one period; raises `KeyError` when a
member class has no `schedule_vars` entry for the group's subject. -/
def groupTies (spcO : List (Int × List (String × String))) (g : GroupClass)
    (i p : Nat) : Except PyErr (List LinCon) :=
  mapE (fun c =>
    if varExists spcO c g.subject then Except.ok (tieCon c g.subject i p)
    else Except.error (PyErr.keyError (toString c ++ ", " ++ g.subject))) g.classes

/-- All constraints emitted while processing one group. -/
def groupConsFor (spcO : List (Int × List (String × String))) (i : Nat)
    (g : GroupClass) : Except PyErr (List LinCon) := do
  let per ← mapE (fun p => do
    let ties ← groupTies spcO g i p
    pure ((if allowedPeriod g p then ([] : List LinCon) else [gZeroCon i p]) ++ ties))
    weekPeriods
  pure (per.flatten ++ [gSumCon i g.periodsPerWeek])

/-- All constraints of the group-processing loop. -/
def buildGroupCons (spcO : List (Int × List (String × String)))
    (groups : List GroupClass) : Except PyErr (List LinCon) := do
  let ls ← mapE (fun ig => groupConsFor spcO ig.1 ig.2) groups.enum
  pure ls.flatten

/-- `GroupAtMostOncePerDay_g{i}_day{d}` constraints. -/
def groupOncePerDayCons (groups : List GroupClass) : List LinCon :=
  (List.range groups.length).flatMap (fun i =>
    (List.range 6).map (fun d =>
      ⟨(dayPeriods d).map (fun p => ((1 : Int), Var.g i p)), Cmp.le, 1⟩))

/-- `OneSubject_class{c}_p{p}` constraints. -/
def oneSubjectCons (spcO : List (Int × List (String × String))) : List LinCon :=
  spcO.flatMap (fun ci =>
    weekPeriods.map (fun p =>
      ⟨ci.2.map (fun st => ((1 : Int), Var.x ci.1 st.1 p)), Cmp.le, 1⟩))

/-- `teacher_individual`: teacher → list of non-group `(class, subject)`. -/
def teacherIndividual (ms : List STMapping) (groups : List GroupClass) :
    List (String × List (Int × String)) :=
  ms.foldl
    (fun d m =>
      if inGroupAssignment groups m.class_id m.subject then d
      else dictUpsert d m.teacher (m.class_id, m.subject))
    []

/-- `teacher_group`: teacher → set (here: list) of group indices. -/
def teacherGroup (groups : List GroupClass) : List (String × List Nat) :=
  groups.enum.foldl (fun d ig => dictUpsert d ig.2.teacher ig.1) []

/-- `set(list(teacher_individual.keys()) + list(teacher_group.keys()))`. -/
def allTeachers (ti : List (String × List (Int × String)))
    (tg : List (String × List Nat)) : List String :=
  (ti.map Prod.fst ++ tg.map Prod.fst).dedup

/-- `TeacherAvailability_{t}_p{p}`: the teacher's individual variables plus
group variables sum to at most 1. -/
def teacherCon (ti : List (String × List (Int × String)))
    (tg : List (String × List Nat)) (t : String) (p : Nat) : LinCon :=
  ⟨(dictLookupD ti t []).map (fun cs => ((1 : Int), Var.x cs.1 cs.2 p)) ++
    (dictLookupD tg t []).map (fun i => ((1 : Int), Var.g i p)), Cmp.le, 1⟩

/-- All teacher availability constraints. -/
def teacherCons (ti : List (String × List (Int × String)))
    (tg : List (String × List Nat)) : List LinCon :=
  (allTeachers ti tg).flatMap (fun t => weekPeriods.map (teacherCon ti tg t))

/-- `MaxTwoPerDay_class{c}_{s}_day{d}` constraints for non-group subjects. -/
def maxTwoIndivCons (spcO : List (Int × List (String × String)))
    (groups : List GroupClass) : List LinCon :=
  spcO.flatMap (fun ci =>
    ci.2.flatMap (fun st =>
      if inGroupAssignment groups ci.1 st.1 then []
      else (List.range 6).map (fun d =>
        ⟨(dayPeriods d).map (fun p => ((1 : Int), Var.x ci.1 st.1 p)), Cmp.le, 2⟩)))

/-- `MaxTwoPerDay_group{i}_day{d}` constraints. -/
def maxTwoGroupCons (groups : List GroupClass) : List LinCon :=
  (List.range groups.length).flatMap (fun i =>
    (List.range 6).map (fun d =>
      ⟨(dayPeriods d).map (fun p => ((1 : Int), Var.g i p)), Cmp.le, 2⟩))

/-- A PuLP problem: constraint list plus (minimised) objective. -/
structure LpModel : Type where
  constraints : List LinCon
  objective : List (Int × Var)
  deriving DecidableEq

/-- Everything `generate_schedule_from_config` has in scope after building
the model. -/
structure Ctx : Type where
  spcO : List (Int × List (String × String))
  spdO : List (Int × List (String × Int))
  model : LpModel
  deriving DecidableEq

/-- Index building plus model building of the executed block of
`generate_schedule_from_config` (dummy zero objective). -/
def buildAll (cfg : Config) : Except PyErr Ctx := do
  let spcO ← buildSPC cfg.numClasses cfg.subjectTeacherMappings
  let spdO ← buildSPD cfg.numClasses cfg.subjectPeriodMappings
  let gcons ← buildGroupCons spcO cfg.groupClasses
  pure ⟨spcO, spdO,
    { constraints :=
        periodReqCons spcO spdO cfg.groupClasses ++ gcons ++
        groupOncePerDayCons cfg.groupClasses ++ oneSubjectCons spcO ++
        teacherCons (teacherIndividual cfg.subjectTeacherMappings cfg.groupClasses)
          (teacherGroup cfg.groupClasses) ++
        maxTwoIndivCons spcO cfg.groupClasses ++ maxTwoGroupCons cfg.groupClasses,
      objective := [] }⟩

/-- Just the model of `buildAll`. -/
def buildModel (cfg : Config) : Except PyErr LpModel :=
  (buildAll cfg).map (fun ctx => ctx.model)

/-! ## Adjacency-objective variant (the second, unreachable block) -/

/-- The three linearisation constraints `y ≤ x1`, `y ≤ x2`,
`y ≥ x1 + x2 - 1` for one adjacency indicator. -/
def adjTriple (y x1 x2 : Var) : List LinCon :=
  [⟨[((1 : Int), y), ((-1 : Int), x1)], Cmp.le, 0⟩,
   ⟨[((1 : Int), y), ((-1 : Int), x2)], Cmp.le, 0⟩,
   ⟨[((1 : Int), y), ((-1 : Int), x1), ((-1 : Int), x2)], Cmp.ge, -1⟩]

/-- Adjacency constraints for the non-group subjects, in source order. -/
def adjConsIndiv (spcO : List (Int × List (String × String)))
    (groups : List GroupClass) : List LinCon :=
  spcO.flatMap (fun ci =>
    ci.2.flatMap (fun st =>
      if inGroupAssignment groups ci.1 st.1 then []
      else (List.range 6).flatMap (fun d =>
        (List.range 5).flatMap (fun k =>
          adjTriple (Var.yx ci.1 st.1 d k) (Var.x ci.1 st.1 (d * 6 + k))
            (Var.x ci.1 st.1 (d * 6 + k + 1))))))

/-- Adjacency constraints for the groups. -/
def adjConsGroup (groups : List GroupClass) : List LinCon :=
  (List.range groups.length).flatMap (fun i =>
    (List.range 6).flatMap (fun d =>
      (List.range 5).flatMap (fun k =>
        adjTriple (Var.yg i d k) (Var.g i (d * 6 + k)) (Var.g i (d * 6 + k + 1)))))

/-- `all_y_vars` in allocation order: individual first, then groups. -/
def allYVars (spcO : List (Int × List (String × String)))
    (groups : List GroupClass) : List Var :=
  spcO.flatMap (fun ci =>
    ci.2.flatMap (fun st =>
      if inGroupAssignment groups ci.1 st.1 then []
      else (List.range 6).flatMap (fun d =>
        (List.range 5).map (fun k => Var.yx ci.1 st.1 d k)))) ++
  (List.range groups.length).flatMap (fun i =>
    (List.range 6).flatMap (fun d =>
      (List.range 5).map (fun k => Var.yg i d k)))

/-- Model builder of the adjacency variant: the same core constraints plus
the `y` triples, objective `model += -lpSum(all_y_vars)` (minimised). -/
def buildAllAdj (cfg : Config) : Except PyErr Ctx := do
  let spcO ← buildSPC cfg.numClasses cfg.subjectTeacherMappings
  let spdO ← buildSPD cfg.numClasses cfg.subjectPeriodMappings
  let gcons ← buildGroupCons spcO cfg.groupClasses
  pure ⟨spcO, spdO,
    { constraints :=
        periodReqCons spcO spdO cfg.groupClasses ++ gcons ++
        groupOncePerDayCons cfg.groupClasses ++ oneSubjectCons spcO ++
        teacherCons (teacherIndividual cfg.subjectTeacherMappings cfg.groupClasses)
          (teacherGroup cfg.groupClasses) ++
        maxTwoIndivCons spcO cfg.groupClasses ++ maxTwoGroupCons cfg.groupClasses ++
        adjConsIndiv spcO cfg.groupClasses ++ adjConsGroup cfg.groupClasses,
      objective := (allYVars spcO cfg.groupClasses).map (fun v => ((-1 : Int), v)) }⟩

/-- Just the model of `buildAllAdj`. -/
def buildModelAdj (cfg : Config) : Except PyErr LpModel :=
  (buildAllAdj cfg).map (fun ctx => ctx.model)

/-! ## Decoder -/

/-- One filled grid cell: `{"subject": ..., "teacher": ...}`. -/
structure Cell : Type where
  subject : String
  teacher : String
  deriving DecidableEq

/-- The decoded timetable: days × slots × classes of optional cells. -/
abbrev Grid : Type := List (List (List (Option Cell)))

/-- In-place update of one list position (no-op when out of bounds), the
behaviour of a Python list element assignment at a valid index. -/
def listModify {α : Type} (f : α → α) : Nat → List α → List α
  | _, [] => []
  | 0, a :: as => f a :: as
  | n + 1, a :: as => a :: listModify f n as

/-- `schedule_grid[d][k][j] = v`. -/
def gridSet (grid : Grid) (d k j : Nat) (v : Option Cell) : Grid :=
  listModify (fun day => listModify (fun row => row.set j v) k day) d grid

/-- The initial `6 × 6 × num_classes` grid of `None` cells. -/
def emptyGrid (N : Nat) : Grid :=
  List.replicate 6 (List.replicate 6 (List.replicate N (none : Option Cell)))

/-- The body of the decoding loop at one period: write `{subject, teacher}`
into `grid[p / 6][p % 6][class_id - 1]` whenever `value(x) == 1`. -/
def decodePeriod (σ : Var → Int) (c : Int) (s t : String) (grid : Grid) (p : Nat) : Grid :=
  if σ (Var.x c s p) = 1 then
    gridSet grid (p / 6) (p % 6) (c - 1).toNat (some ⟨s, t⟩)
  else grid

/-- The decoding loop: for every class (in key order), subject (in dict
order) and period, run `decodePeriod`. -/
def decodeSchedule (N : Nat) (spcO : List (Int × List (String × String)))
    (σ : Var → Int) : Grid :=
  spcO.foldl
    (fun grid ci =>
      ci.2.foldl
        (fun grid st => weekPeriods.foldl (decodePeriod σ ci.1 st.1 st.2) grid)
        grid)
    (emptyGrid N)

/-- `grid[d][k][j]` as an option (distinguishing "out of bounds" from an
empty cell). -/
def getCell (grid : Grid) (d k j : Nat) : Option (Option Cell) :=
  ((grid.get? d).bind (fun day => day.get? k)).bind (fun row => row.get? j)

/-! ## Solver dispatch and request handler -/

/-- The PuLP solution statuses (`LpStatus` keys). -/
inductive SolverStatus : Type
  | notSolved
  | optimal
  | infeasible
  | unbounded
  | undefined
  deriving DecidableEq

/-- The `LpStatus` status-name strings of PuLP. -/
def lpStatusName : SolverStatus → String
  | SolverStatus.notSolved => "Not Solved"
  | SolverStatus.optimal => "Optimal"
  | SolverStatus.infeasible => "Infeasible"
  | SolverStatus.unbounded => "Unbounded"
  | SolverStatus.undefined => "Undefined"

/-- `LpStatus[model.status] in ['Optimal', 'Feasible']`. -/
def statusOk (st : SolverStatus) : Bool :=
  lpStatusName st = "Optimal" || lpStatusName st = "Feasible"

/-- `generate_schedule_from_config` around an externally produced solver
status and variable assignment: build indices and model (possibly raising),
then return `None` unless the status is Optimal/Feasible, else decode. -/
def generateScheduleFromConfig (cfg : Config) (st : SolverStatus)
    (σ : Var → Int) : Except PyErr (Option Grid) :=
  (buildAll cfg).map (fun ctx =>
    if statusOk st then some (decodeSchedule cfg.numClasses ctx.spcO σ) else none)

/-- The JSON body written by `handler.do_POST`. -/
inductive RespBody : Type
  | schedule (g : Grid)
  | err (msg : String)
  deriving DecidableEq

/-- The status code and body produced by `handler.do_POST` from the core's
outcome. -/
def handlerResponse (r : Except PyErr (Option Grid)) : Nat × RespBody :=
  match r with
  | Except.ok (some g) => (200, RespBody.schedule g)
  | Except.ok none => (500, RespBody.err "No solution found!")
  | Except.error e => (500, RespBody.err (pyErrMsg e))

/-! ## The `solver.py` variant -/

namespace SolverPy

/-- A `groupClasses` entry as read by `solver.py`: `selectedSlots` is read
with `group.get('selectedSlots', None)`, so a missing key is `none`. -/
structure SGroup : Type where
  subject : String
  classes : List Int
  teacher : String
  periodsPerWeek : Int
  selectedSlots : Option (List Int)
  deriving DecidableEq

/-- The configuration record of `solver.py`. -/
structure SConfig : Type where
  numClasses : Nat
  subjectTeacherMappings : List STMapping
  subjectPeriodMappings : List SPMapping
  groupClasses : List SGroup
  deriving DecidableEq

/-- `solver.py` has 7 periods per day, hence 42 week periods. -/
def sWeekPeriods : List Nat := List.range 42

/-- `[x-1 for x in group.get('selectedSlots', None)]`: raises `TypeError`
when the key is missing (iterating `None`). -/
def slotIndices (g : SGroup) : Except PyErr (List Int) :=
  match g.selectedSlots with
  | none => Except.error (PyErr.typeError "argument of type NoneType is not iterable")
  | some l => Except.ok (l.map (fun v => v - 1))

/-- Non-group weekly demand constraints of `solver.py` (42 periods). -/
def sPeriodReqCons (spcO : List (Int × List (String × String)))
    (spdO : List (Int × List (String × Int))) (groups : List SGroup) : List LinCon :=
  spcO.flatMap (fun ci =>
    ci.2.flatMap (fun st =>
      if groups.any (fun g => g.subject = st.1 && g.classes.any (fun c2 => c2 = ci.1)) then []
      else [⟨sWeekPeriods.map (fun p => ((1 : Int), Var.x ci.1 st.1 p)), Cmp.eq,
             demandOf spdO ci.1 st.1⟩]))

/-- Group-processing constraints of `solver.py` for one group: the forced
zeros use whole-week period indices `v - 1`, not within-day slots. -/
def sGroupConsFor (spcO : List (Int × List (String × String))) (i : Nat)
    (g : SGroup) : Except PyErr (List LinCon) := do
  let slots ← slotIndices g
  let per ← mapE (fun p => do
    let ties ← mapE (fun c =>
      if varExists spcO c g.subject then Except.ok (tieCon c g.subject i p)
      else Except.error (PyErr.keyError (toString c ++ ", " ++ g.subject))) g.classes
    pure ((if slots.contains ((p : Int)) then ([] : List LinCon) else [gZeroCon i p]) ++ ties))
    sWeekPeriods
  pure (per.flatten ++ [⟨sWeekPeriods.map (fun p => ((1 : Int), Var.g i p)), Cmp.eq,
         g.periodsPerWeek⟩])

/-- All group constraints of `solver.py`. -/
def sBuildGroupCons (spcO : List (Int × List (String × String)))
    (groups : List SGroup) : Except PyErr (List LinCon) := do
  let ls ← mapE (fun ig => sGroupConsFor spcO ig.1 ig.2) groups.enum
  pure ls.flatten

/-- One-subject-per-period constraints of `solver.py`. -/
def sOneSubjectCons (spcO : List (Int × List (String × String))) : List LinCon :=
  spcO.flatMap (fun ci =>
    sWeekPeriods.map (fun p =>
      ⟨ci.2.map (fun st => ((1 : Int), Var.x ci.1 st.1 p)), Cmp.le, 1⟩))

/-- Teacher availability constraints of `solver.py`. -/
def sTeacherCons (ti : List (String × List (Int × String)))
    (tg : List (String × List Nat)) : List LinCon :=
  (allTeachers ti tg).flatMap (fun t => sWeekPeriods.map (teacherCon ti tg t))

/-- `teacher_individual` of `solver.py`. -/
def sTeacherIndividual (ms : List STMapping) (groups : List SGroup) :
    List (String × List (Int × String)) :=
  ms.foldl
    (fun d m =>
      if groups.any (fun g => g.subject = m.subject && g.classes.any (fun c2 => c2 = m.class_id))
      then d
      else dictUpsert d m.teacher (m.class_id, m.subject))
    []

/-- `teacher_group` of `solver.py`. -/
def sTeacherGroup (groups : List SGroup) : List (String × List Nat) :=
  groups.enum.foldl (fun d ig => dictUpsert d ig.2.teacher ig.1) []

/-- The full constraint list built by `solver.py` before `solver.Solve`. -/
def buildSolverModel (cfg : SConfig) : Except PyErr (List LinCon) := do
  let spcO ← buildSPC cfg.numClasses cfg.subjectTeacherMappings
  let spdO ← buildSPD cfg.numClasses cfg.subjectPeriodMappings
  let gcons ← sBuildGroupCons spcO cfg.groupClasses
  pure (sPeriodReqCons spcO spdO cfg.groupClasses ++ gcons ++
    sOneSubjectCons spcO ++
    sTeacherCons (sTeacherIndividual cfg.subjectTeacherMappings cfg.groupClasses)
      (sTeacherGroup cfg.groupClasses))

end SolverPy

/-! ## Infrastructure: `mapE` and `foldE` -/

/-! ## Definitions used by the theorems below -/

/-- Well-formed dimensions of a (possibly partially written) grid. -/
def GridDims (N : Nat) (grid : Grid) : Prop :=
  grid.length = 6 ∧ ∀ day ∈ grid, day.length = 6 ∧ ∀ row ∈ day, row.length = N

/-- What one subject entry does to the cell of class `c` at period `q`
(last write wins). -/
def cellStep (σ : Var → Int) (c : Int) (q : Nat) (acc : Option Cell)
    (st : String × String) : Option Cell :=
  if σ (Var.x c st.1 q) = 1 then some ⟨st.1, st.2⟩ else acc

/-- Whether an optional cell displays subject `s`. -/
def cellShowsSubject (oc : Option Cell) (s : String) : Bool :=
  match oc with
  | some r => decide (r.subject = s)
  | none => false

/-- Whether an optional cell displays teacher `t`. -/
def cellShowsTeacher (oc : Option Cell) (t : String) : Bool :=
  match oc with
  | some r => decide (r.teacher = t)
  | none => false

/-- The filled-cell indicator of one grid position for a subject. -/
def gridSubjectAt (grid : Grid) (d k j : Nat) (s : String) : Bool :=
  match getCell grid d k j with
  | some oc => cellShowsSubject oc s
  | none => false

/-- The filled-cell indicator of one grid position for a teacher. -/
def gridTeacherAt (grid : Grid) (d k j : Nat) (t : String) : Bool :=
  match getCell grid d k j with
  | some oc => cellShowsTeacher oc t
  | none => false

/-- The `(day, slot)` cells in which the column of class index `j` carries
subject `s`. -/
def subjectCells (grid : Grid) (j : Nat) (s : String) : List (Nat × Nat) :=
  (List.range 6).flatMap (fun d =>
    ((List.range 6).filter (fun k => gridSubjectAt grid d k j s)).map (fun k => (d, k)))

/-- The class indices whose cell at `(d, k)` displays teacher `t`. -/
def teacherColumn (grid : Grid) (d k : Nat) (t : String) (N : Nat) : List Nat :=
  (List.range N).filter (fun j => gridTeacherAt grid d k j t)

/-- A concrete request: one class, one non-group subject, demand 2. -/
def cfgW1 : Config :=
  Config.mk 1 [STMapping.mk 1 "M" "A"] [SPMapping.mk 1 "M" 2] []

/-- The context built from `cfgW1` by the executed variant. -/
def ctxW1 : Ctx :=
  match buildAll cfgW1 with
  | Except.ok ctx => ctx
  | Except.error _ => Ctx.mk [] [] (LpModel.mk [] [])

/-- The context built from `cfgW1` by the adjacency variant. -/
def ctxW1adj : Ctx :=
  match buildAllAdj cfgW1 with
  | Except.ok ctx => ctx
  | Except.error _ => Ctx.mk [] [] (LpModel.mk [] [])

/-- A concrete satisfying assignment for `cfgW1`: Math in the first two
Monday slots. -/
def sigW1 : Var → Int :=
  indicator [Var.x 1 "M" 0, Var.x 1 "M" 1]

/-- A concrete request: one class, one group of that class with one weekly
session. -/
def cfgW2 : Config :=
  Config.mk 1 [STMapping.mk 1 "P" "A"] []
    [GroupClass.mk "P" [1] "A" 1 [] []]

/-- The context built from `cfgW2`. -/
def ctxW2 : Ctx :=
  match buildAll cfgW2 with
  | Except.ok ctx => ctx
  | Except.error _ => Ctx.mk [] [] (LpModel.mk [] [])

/-- A concrete satisfying assignment for `cfgW2`: the group meets in period
0. -/
def sigW2 : Var → Int :=
  indicator [Var.g 0 0, Var.x 1 "P" 0]

/-- A concrete request with a two-class group sharing teacher `"A"`. -/
def cfgC4 : Config :=
  Config.mk 2 [STMapping.mk 1 "PE" "A", STMapping.mk 2 "PE" "A"] []
    [GroupClass.mk "PE" [1, 2] "A" 1 [] []]

/-- The context built from `cfgC4`. -/
def ctxC4 : Ctx :=
  match buildAll cfgC4 with
  | Except.ok ctx => ctx
  | Except.error _ => Ctx.mk [] [] (LpModel.mk [] [])

/-- A satisfying assignment for `cfgC4`: the group meets in period 0. -/
def sigC4 : Var → Int :=
  indicator [Var.g 0 0, Var.x 1 "PE" 0, Var.x 2 "PE" 0]

/-- A concrete request whose group has a `selectedDays` entry 7 outside
`1..6`, and a zero-demand group, so that everything is satisfiable. -/
def cfgC7 : Config :=
  Config.mk 1 [STMapping.mk 1 "M" "A"] [] [GroupClass.mk "M" [1] "A" 0 [7] []]

/-- The context built from `cfgC7`. -/
def ctxC7 : Ctx :=
  match buildAll cfgC7 with
  | Except.ok ctx => ctx
  | Except.error _ => Ctx.mk [] [] (LpModel.mk [] [])

/-- The all-zero assignment. -/
def sig0 : Var → Int := indicator []

/-- A concrete request whose only mapping names class 2 with
`numClasses = 1`. -/
def cfgC7bad : Config :=
  Config.mk 1 [STMapping.mk 2 "M" "A"] [] []

/-- A concrete `solver.py` request: one class, one group with
`selectedSlots = [1]`. -/
def gC9 : SolverPy.SGroup := SolverPy.SGroup.mk "M" [1] "A" 1 (some [1])

/-- The configuration holding `gC9`. -/
def cfgC9 : SolverPy.SConfig := SolverPy.SConfig.mk 1 [STMapping.mk 1 "M" "A"] [] [gC9]

/-- The constraint list `solver.py` builds from `cfgC9`. -/
def consC9 : List LinCon :=
  match SolverPy.buildSolverModel cfgC9 with
  | Except.ok cs => cs
  | Except.error _ => []

/-- A satisfying assignment for `consC9`: the group meets at period 0. -/
def sigC9 : Var → Int := indicator [Var.g 0 0, Var.x 1 "M" 0]

/-- A concrete `solver.py` request whose single group omits
`selectedSlots`. -/
def cfgC10 : SolverPy.SConfig :=
  SolverPy.SConfig.mk 1 [STMapping.mk 1 "M" "A"] []
    [SolverPy.SGroup.mk "M" [1] "A" 1 none]

theorem indicator_binary (l : List Var) : Binary (indicator l) := by
  intro v
  unfold indicator
  by_cases h : v ∈ l <;> simp [h]

theorem mapE_ok_mem {α β : Type} {f : α → Except PyErr β} {l : List α} {ys : List β}
    (h : mapE f l = Except.ok ys) {a : α} (ha : a ∈ l) :
    ∃ b, f a = Except.ok b ∧ b ∈ ys := by
  induction l generalizing ys with
  | nil => cases ha
  | cons hd tl ih =>
    rw [mapE] at h
    cases hfa : f hd with
    | error e => rw [hfa] at h; cases h
    | ok b =>
      rw [hfa] at h
      cases hrest : mapE f tl with
      | error e => rw [hrest] at h; cases h
      | ok bs =>
        rw [hrest] at h
        cases h
        rcases List.mem_cons.mp ha with h1 | h1
        · subst h1
          exact ⟨b, hfa, List.mem_cons_self _ _⟩
        · obtain ⟨b2, hb2, hmem⟩ := ih hrest h1
          exact ⟨b2, hb2, List.mem_cons_of_mem _ hmem⟩

theorem mapE_ok_get? {α β : Type} {f : α → Except PyErr β} {l : List α} {ys : List β}
    (h : mapE f l = Except.ok ys) (i : Nat) {a : α} (hi : l.get? i = some a) :
    ∃ b, ys.get? i = some b ∧ f a = Except.ok b := by
  induction l generalizing ys i with
  | nil => cases hi
  | cons hd tl ih =>
    rw [mapE] at h
    cases hfa : f hd with
    | error e => rw [hfa] at h; cases h
    | ok b =>
      rw [hfa] at h
      cases hrest : mapE f tl with
      | error e => rw [hrest] at h; cases h
      | ok bs =>
        rw [hrest] at h
        cases h
        cases i with
        | zero =>
          cases hi
          exact ⟨b, rfl, hfa⟩
        | succ j => exact ih hrest j hi

theorem mapE_error_of_mem {α β : Type} {f : α → Except PyErr β} {l : List α}
    {a : α} (ha : a ∈ l) {e : PyErr} (he : f a = Except.error e) :
    ∃ e2, mapE f l = Except.error e2 := by
  induction l with
  | nil => cases ha
  | cons hd tl ih =>
    rcases List.mem_cons.mp ha with h1 | h1
    · subst h1
      exact ⟨e, by rw [mapE, he]⟩
    · cases hfa : f hd with
      | error e3 => exact ⟨e3, by rw [mapE, hfa]⟩
      | ok b =>
        obtain ⟨e2, h2⟩ := ih h1
        exact ⟨e2, by rw [mapE, hfa, h2]⟩

/-- When every element either succeeds or fails with a fixed error `e0`, and
some element fails, the whole `mapE` fails with `e0`. -/
theorem mapE_error_fixed {α β : Type} {f : α → Except PyErr β} {l : List α} {e0 : PyErr}
    (hall : ∀ a ∈ l, f a = Except.error e0 ∨ ∃ b, f a = Except.ok b)
    (hsome : ∃ a ∈ l, f a = Except.error e0) :
    mapE f l = Except.error e0 := by
  induction l with
  | nil => obtain ⟨a, ha, _⟩ := hsome; cases ha
  | cons hd tl ih =>
    rcases hall hd (List.mem_cons_self _ _) with hh | ⟨b, hb⟩
    · rw [mapE, hh]
    · rw [mapE, hb]
      have htl : ∃ a ∈ tl, f a = Except.error e0 := by
        obtain ⟨a, ha, hae⟩ := hsome
        rcases List.mem_cons.mp ha with h1 | h1
        · rw [h1, hb] at hae; cases hae
        · exact ⟨a, h1, hae⟩
      rw [ih (fun a ha => hall a (List.mem_cons_of_mem _ ha)) htl]

theorem mapE_all_ok {α β : Type} {f : α → Except PyErr β} {l : List α}
    (h : ∀ a ∈ l, ∃ b, f a = Except.ok b) :
    ∃ ys, mapE f l = Except.ok ys := by
  induction l with
  | nil => exact ⟨[], rfl⟩
  | cons hd tl ih =>
    obtain ⟨b, hb⟩ := h hd (List.mem_cons_self _ _)
    obtain ⟨ys, hys⟩ := ih (fun a ha => h a (List.mem_cons_of_mem _ ha))
    exact ⟨b :: ys, by rw [mapE, hb, hys]⟩

/-! ## Infrastructure: dictionaries -/

theorem dictLookup_dictInsert {α β : Type} [DecidableEq α] (d : List (α × β))
    (k k' : α) (v : β) :
    dictLookup (dictInsert d k v) k' = if k' = k then some v else dictLookup d k' := by
  unfold dictInsert dictLookup
  by_cases hk : d.any (fun kv => kv.1 = k)
  · rw [if_pos hk, List.find?_map]
    by_cases heq : k' = k
    · subst heq
      rw [if_pos rfl]
      have hpred : (fun kv : α × β => decide (kv.1 = k')) ∘
          (fun kv : α × β => if kv.1 = k' then (k', v) else kv) =
          fun kv : α × β => decide (kv.1 = k') := by
        funext kv
        by_cases h1 : kv.1 = k' <;> simp [h1]
      rw [hpred]
      have hsome : (d.find? (fun kv => decide (kv.1 = k'))).isSome := by
        rw [List.find?_isSome]
        obtain ⟨kv0, hkv0, hf⟩ := List.any_eq_true.mp hk
        exact ⟨kv0, hkv0, hf⟩
      obtain ⟨kv0, hkv0⟩ := Option.isSome_iff_exists.mp hsome
      have hfst : kv0.1 = k' := by
        have := List.find?_some hkv0
        simpa using this
      rw [hkv0]
      simp [hfst]
    · rw [if_neg heq]
      have hpred : (fun kv : α × β => decide (kv.1 = k')) ∘
          (fun kv : α × β => if kv.1 = k then (k, v) else kv) =
          fun kv : α × β => decide (kv.1 = k') := by
        funext kv
        by_cases h1 : kv.1 = k <;> simp [h1]
      rw [hpred]
      cases hfind : d.find? (fun kv => decide (kv.1 = k')) with
      | none => simp
      | some kv0 =>
        have hfst : kv0.1 = k' := by
          have := List.find?_some hfind
          simpa using this
        have : (if kv0.1 = k then (k, v) else kv0) = kv0 := by
          rw [if_neg (by rw [hfst]; exact heq)]
        simp [this]
  · rw [if_neg hk, List.find?_append]
    have hnone : d.find? (fun kv => decide (kv.1 = k)) = none := by
      rw [List.find?_eq_none]
      intro kv hkv h
      exact hk (List.any_eq_true.mpr ⟨kv, hkv, h⟩)
    by_cases heq : k' = k
    · subst heq
      rw [if_pos rfl, hnone]
      simp [List.find?]
    · rw [if_neg heq]
      have h2 : List.find? (fun kv => decide (kv.1 = k')) [(k, v)] = none := by
        have hd : decide ((k, v).1 = k') = false := decide_eq_false (fun h => heq h.symm)
        simp only [List.find?]
        rw [hd]
      cases hfind : d.find? (fun kv => decide (kv.1 = k')) <;> simp [hfind, h2]

theorem dictLookupD_dictUpsert {α β : Type} [DecidableEq α] (d : List (α × List β))
    (k k' : α) (v : β) :
    dictLookupD (dictUpsert d k v) k' [] =
      if k' = k then dictLookupD d k [] ++ [v] else dictLookupD d k' [] := by
  unfold dictUpsert dictLookupD dictLookup
  by_cases hk : d.any (fun kv => kv.1 = k)
  · rw [if_pos hk, List.find?_map]
    have hpred : (fun kv : α × List β => decide (kv.1 = k')) ∘
        (fun kv : α × List β => if kv.1 = k then (kv.1, kv.2 ++ [v]) else kv) =
        fun kv : α × List β => decide (kv.1 = k') := by
      funext kv
      by_cases h1 : kv.1 = k <;> simp [h1]
    rw [hpred]
    by_cases heq : k' = k
    · subst heq
      rw [if_pos rfl]
      have hsome : (d.find? (fun kv => decide (kv.1 = k'))).isSome := by
        rw [List.find?_isSome]
        obtain ⟨kv0, hkv0, hf⟩ := List.any_eq_true.mp hk
        exact ⟨kv0, hkv0, hf⟩
      obtain ⟨kv0, hkv0⟩ := Option.isSome_iff_exists.mp hsome
      have hfst : kv0.1 = k' := by simpa using List.find?_some hkv0
      rw [hkv0]
      simp [hfst]
    · rw [if_neg heq]
      cases hfind : d.find? (fun kv => decide (kv.1 = k')) with
      | none => simp
      | some kv0 =>
        have hfst : kv0.1 = k' := by simpa using List.find?_some hfind
        have : (if kv0.1 = k then (kv0.1, kv0.2 ++ [v]) else kv0) = kv0 := by
          rw [if_neg (by rw [hfst]; exact heq)]
        simp [this]
  · rw [if_neg hk, List.find?_append]
    have hnone : d.find? (fun kv => decide (kv.1 = k)) = none := by
      rw [List.find?_eq_none]
      intro kv hkv h
      exact hk (List.any_eq_true.mpr ⟨kv, hkv, h⟩)
    by_cases heq : k' = k
    · subst heq
      rw [if_pos rfl, hnone]
      simp [List.find?]
    · rw [if_neg heq]
      have h2 : List.find? (fun kv => decide (kv.1 = k')) [(k, [v])] = none := by
        have hd : decide ((k, ([v] : List β)).1 = k') = false :=
          decide_eq_false (fun h => heq h.symm)
        simp only [List.find?]
        rw [hd]
      cases hfind : d.find? (fun kv => decide (kv.1 = k')) <;> simp [hfind, h2]

/-- A left fold of upserts writes, under each key `t`, exactly the values of
the elements whose key is `t`, in order. -/
theorem foldl_dictUpsert_lookup {α β K : Type} [DecidableEq K] (key : α → K)
    (val : α → β) (l : List α) (d0 : List (K × List β)) (t : K) :
    dictLookupD (l.foldl (fun d a => dictUpsert d (key a) (val a)) d0) t [] =
      dictLookupD d0 t [] ++ (l.filter (fun a => key a = t)).map val := by
  induction l generalizing d0 with
  | nil => simp
  | cons hd tl ih =>
    rw [List.foldl_cons, ih, dictLookupD_dictUpsert]
    by_cases h1 : key hd = t
    · rw [if_pos h1.symm]
      simp [List.filter_cons, h1]
    · rw [if_neg (fun h => h1 h.symm)]
      simp [List.filter_cons, h1]

/-- A fold that skips the elements satisfying `p` equals the fold over the
complement filter. -/
theorem foldl_skip_eq_filter {α β : Type} (p : α → Bool) (f : β → α → β)
    (l : List α) (b0 : β) :
    l.foldl (fun b a => if p a then b else f b a) b0 =
      (l.filter (fun a => !p a)).foldl f b0 := by
  induction l generalizing b0 with
  | nil => rfl
  | cons hd tl ih =>
    rw [List.foldl_cons, List.filter_cons]
    cases hp : p hd <;> simp [hp, ih]

/-! ## Infrastructure: the outer class dictionaries -/

theorem outerUpdateD_fst {β : Type} (d : List (Int × List β)) (c : Int)
    (f : List β → List β) :
    (outerUpdateD d c f).map Prod.fst = d.map Prod.fst := by
  unfold outerUpdateD
  rw [List.map_map]
  apply List.map_congr_left
  intro kv _
  by_cases h1 : kv.1 = c <;> simp [h1]

theorem initOuter_fst (N : Nat) (β : Type) :
    (initOuter N β).map Prod.fst = (List.range N).map (fun i : Nat => (i : Int) + 1) := by
  unfold initOuter
  rw [List.map_map]
  rfl

theorem mem_initOuter_fst {N : Nat} {β : Type} {c : Int} :
    c ∈ (initOuter N β).map Prod.fst ↔ 1 ≤ c ∧ c ≤ (N : Int) := by
  rw [initOuter_fst]
  constructor
  · intro h
    obtain ⟨i, hi, heq⟩ := List.mem_map.mp h
    rw [List.mem_range] at hi
    omega
  · rintro ⟨h1, h2⟩
    refine List.mem_map.mpr ⟨(c - 1).toNat, ?_, ?_⟩
    · rw [List.mem_range]; omega
    · omega

/-- A fold of checked outer updates whose keys are all present succeeds and
equals the fold of total updates. -/
theorem foldE_outerUpdate_ok {α β : Type} (key : α → Int) (upd : α → List β → List β)
    (l : List α) (d0 : List (Int × List β))
    (h : ∀ a ∈ l, key a ∈ d0.map Prod.fst) :
    foldE (fun d a => outerUpdate d (key a) (upd a)) d0 l =
      Except.ok (l.foldl (fun d a => outerUpdateD d (key a) (upd a)) d0) := by
  induction l generalizing d0 with
  | nil => rfl
  | cons hd tl ih =>
    have hhd : key hd ∈ d0.map Prod.fst := h hd (List.mem_cons_self _ _)
    have hany : d0.any (fun kv => kv.1 = key hd) = true := by
      rw [List.any_eq_true]
      obtain ⟨kv, hkv, hfst⟩ := List.mem_map.mp hhd
      exact ⟨kv, hkv, by simp [hfst]⟩
    rw [foldE, outerUpdate, if_pos hany]
    simp only
    rw [List.foldl_cons]
    exact ih (outerUpdateD d0 (key hd) (upd hd)) (fun a ha => by
      rw [outerUpdateD_fst]
      exact h a (List.mem_cons_of_mem _ ha))

/-- A fold of checked outer updates with some absent key raises `KeyError`. -/
theorem foldE_outerUpdate_error {α β : Type} (key : α → Int) (upd : α → List β → List β)
    (l : List α) (d0 : List (Int × List β))
    (h : ∃ a ∈ l, key a ∉ d0.map Prod.fst) :
    ∃ e, foldE (fun d a => outerUpdate d (key a) (upd a)) d0 l = Except.error e := by
  induction l generalizing d0 with
  | nil => obtain ⟨a, ha, _⟩ := h; cases ha
  | cons hd tl ih =>
    by_cases hhd : key hd ∈ d0.map Prod.fst
    · have hany : d0.any (fun kv => kv.1 = key hd) = true := by
        rw [List.any_eq_true]
        obtain ⟨kv, hkv, hfst⟩ := List.mem_map.mp hhd
        exact ⟨kv, hkv, by simp [hfst]⟩
      rw [foldE, outerUpdate, if_pos hany]
      simp only
      apply ih
      obtain ⟨a, ha, hne⟩ := h
      rcases List.mem_cons.mp ha with h1 | h1
      · exact absurd (h1 ▸ hhd) hne
      · refine ⟨a, h1, ?_⟩
        show key a ∉ (outerUpdateD d0 (key hd) (upd hd)).map Prod.fst
        rw [outerUpdateD_fst]
        exact hne
    · have hany : d0.any (fun kv => kv.1 = key hd) = false := by
        rw [List.any_eq_false]
        intro kv hkv
        simp only [decide_eq_true_eq]
        intro hfst
        exact hhd (List.mem_map.mpr ⟨kv, hkv, hfst⟩)
      rw [foldE, outerUpdate, if_neg (by rw [hany]; exact Bool.false_ne_true)]
      exact ⟨_, rfl⟩

theorem buildSPC_ok {N : Nat} {ms : List STMapping}
    (h : ∀ m ∈ ms, 1 ≤ m.class_id ∧ m.class_id ≤ (N : Int)) :
    buildSPC N ms = Except.ok (buildSPCD N ms) := by
  unfold buildSPC buildSPCD
  exact foldE_outerUpdate_ok _ _ ms _
    (fun m hm => mem_initOuter_fst.mpr (h m hm))

theorem buildSPC_error {N : Nat} {ms : List STMapping}
    (h : ∃ m ∈ ms, ¬(1 ≤ m.class_id ∧ m.class_id ≤ (N : Int))) :
    ∃ e, buildSPC N ms = Except.error e := by
  unfold buildSPC
  apply foldE_outerUpdate_error
  obtain ⟨m, hm, hbad⟩ := h
  exact ⟨m, hm, fun hmem => hbad (mem_initOuter_fst.mp hmem)⟩

theorem buildSPD_ok {N : Nat} {ms : List SPMapping}
    (h : ∀ m ∈ ms, 1 ≤ m.class_id ∧ m.class_id ≤ (N : Int)) :
    buildSPD N ms = Except.ok (buildSPDD N ms) := by
  unfold buildSPD buildSPDD
  exact foldE_outerUpdate_ok _ _ ms _
    (fun m hm => mem_initOuter_fst.mpr (h m hm))

theorem buildSPD_error {N : Nat} {ms : List SPMapping}
    (h : ∃ m ∈ ms, ¬(1 ≤ m.class_id ∧ m.class_id ≤ (N : Int))) :
    ∃ e, buildSPD N ms = Except.error e := by
  unfold buildSPD
  apply foldE_outerUpdate_error
  obtain ⟨m, hm, hbad⟩ := h
  exact ⟨m, hm, fun hmem => hbad (mem_initOuter_fst.mp hmem)⟩

/-- `buildSPC` succeeds only when every mapped class id is a key `1..N`. -/
theorem buildSPC_ok_inv {N : Nat} {ms : List STMapping} {d : List (Int × List (String × String))}
    (h : buildSPC N ms = Except.ok d) :
    (∀ m ∈ ms, 1 ≤ m.class_id ∧ m.class_id ≤ (N : Int)) ∧ d = buildSPCD N ms := by
  by_cases hall : ∀ m ∈ ms, 1 ≤ m.class_id ∧ m.class_id ≤ (N : Int)
  · refine ⟨hall, ?_⟩
    rw [buildSPC_ok hall] at h
    exact (Except.ok.inj h).symm
  · push_neg at hall
    obtain ⟨m, hm, hbad⟩ := hall
    have hbad2 : ¬(1 ≤ m.class_id ∧ m.class_id ≤ (N : Int)) := by
      intro hc
      have := hbad hc.1
      omega
    obtain ⟨e, he⟩ := buildSPC_error ⟨m, hm, hbad2⟩
    rw [he] at h
    cases h

theorem buildSPD_ok_inv {N : Nat} {ms : List SPMapping} {d : List (Int × List (String × Int))}
    (h : buildSPD N ms = Except.ok d) :
    (∀ m ∈ ms, 1 ≤ m.class_id ∧ m.class_id ≤ (N : Int)) ∧ d = buildSPDD N ms := by
  by_cases hall : ∀ m ∈ ms, 1 ≤ m.class_id ∧ m.class_id ≤ (N : Int)
  · refine ⟨hall, ?_⟩
    rw [buildSPD_ok hall] at h
    exact (Except.ok.inj h).symm
  · push_neg at hall
    obtain ⟨m, hm, hbad⟩ := hall
    have hbad2 : ¬(1 ≤ m.class_id ∧ m.class_id ≤ (N : Int)) := by
      intro hc
      have := hbad hc.1
      omega
    obtain ⟨e, he⟩ := buildSPD_error ⟨m, hm, hbad2⟩
    rw [he] at h
    cases h

theorem foldl_outerUpdateD_fst {α β : Type} (key : α → Int) (upd : α → List β → List β)
    (l : List α) (d0 : List (Int × List β)) :
    (l.foldl (fun d a => outerUpdateD d (key a) (upd a)) d0).map Prod.fst =
      d0.map Prod.fst := by
  induction l generalizing d0 with
  | nil => rfl
  | cons hd tl ih => rw [List.foldl_cons, ih, outerUpdateD_fst]

/-- The keys of the built `subjects_per_class` are exactly `1..N` in order. -/
theorem buildSPCD_fst (N : Nat) (ms : List STMapping) :
    (buildSPCD N ms).map Prod.fst = (List.range N).map (fun i : Nat => (i : Int) + 1) := by
  unfold buildSPCD
  rw [foldl_outerUpdateD_fst, initOuter_fst]

theorem buildSPDD_fst (N : Nat) (ms : List SPMapping) :
    (buildSPDD N ms).map Prod.fst = (List.range N).map (fun i : Nat => (i : Int) + 1) := by
  unfold buildSPDD
  rw [foldl_outerUpdateD_fst, initOuter_fst]

/-! ## Infrastructure: evaluating linear constraints -/

theorem evalLin_map_one {γ : Type} (σ : Var → Int) (l : List γ) (v : γ → Var) :
    evalLin σ (l.map (fun a => ((1 : Int), v a))) = (l.map (fun a => σ (v a))).sum := by
  unfold evalLin
  rw [List.map_map]
  congr 1
  apply List.map_congr_left
  intro a _
  simp

theorem evalLin_append (σ : Var → Int) (a b : List (Int × Var)) :
    evalLin σ (a ++ b) = evalLin σ a + evalLin σ b := by
  unfold evalLin
  rw [List.map_append, List.sum_append]

theorem tieCon_holds_iff (σ : Var → Int) (c : Int) (s : String) (i p : Nat) :
    conHolds σ (tieCon c s i p) ↔ σ (Var.x c s p) = σ (Var.g i p) := by
  unfold conHolds tieCon evalLin
  simp only [List.map_cons, List.map_nil, List.sum_cons, List.sum_nil]
  constructor <;> intro h <;> omega

theorem gZeroCon_holds_iff (σ : Var → Int) (i p : Nat) :
    conHolds σ (gZeroCon i p) ↔ σ (Var.g i p) = 0 := by
  unfold conHolds gZeroCon evalLin
  simp only [List.map_cons, List.map_nil, List.sum_cons, List.sum_nil]
  constructor <;> intro h <;> omega

theorem gSumCon_holds_iff (σ : Var → Int) (i : Nat) (n : Int) :
    conHolds σ (gSumCon i n) ↔ (weekPeriods.map (fun p => σ (Var.g i p))).sum = n := by
  unfold conHolds gSumCon
  rw [evalLin_map_one]

theorem periodReqCon_holds_iff (σ : Var → Int) (c : Int) (s : String) (n : Int) :
    conHolds σ (periodReqCon c s n) ↔
      (weekPeriods.map (fun p => σ (Var.x c s p))).sum = n := by
  unfold conHolds periodReqCon
  rw [evalLin_map_one]

/-! ## Infrastructure: sums of binary values -/

theorem sum_map_binary_eq_countP {γ : Type} (l : List γ) (f : γ → Int)
    (h : ∀ a ∈ l, f a = 0 ∨ f a = 1) :
    (l.map f).sum = ((l.countP (fun a => f a = 1)) : Int) := by
  induction l with
  | nil => simp
  | cons hd tl ih =>
    rw [List.map_cons, List.sum_cons, List.countP_cons,
      ih (fun a ha => h a (List.mem_cons_of_mem _ ha))]
    rcases h hd (List.mem_cons_self _ _) with h0 | h1
    · rw [h0]
      have hd0 : (if decide ((0 : Int) = 1) = true then 1 else 0) = (0 : Nat) := by decide
      rw [hd0]
      push_cast
      ring
    · rw [h1]
      have hd1 : (if decide ((1 : Int) = 1) = true then 1 else 0) = (1 : Nat) := by decide
      rw [hd1]
      push_cast
      ring

theorem mem_le_sum_map {γ : Type} {l : List γ} {f : γ → Int}
    (hpos : ∀ a ∈ l, 0 ≤ f a) {a : γ} (ha : a ∈ l) :
    f a ≤ (l.map f).sum := by
  induction l with
  | nil => cases ha
  | cons hd tl ih =>
    rw [List.map_cons, List.sum_cons]
    rcases List.mem_cons.mp ha with h1 | h1
    · subst h1
      have : 0 ≤ (tl.map f).sum :=
        List.sum_nonneg (by
          intro x hx
          obtain ⟨b, hb, rfl⟩ := List.mem_map.mp hx
          exact hpos b (List.mem_cons_of_mem _ hb))
      omega
    · have h2 := ih (fun b hb => hpos b (List.mem_cons_of_mem _ hb)) h1
      have h3 : 0 ≤ f hd := hpos hd (List.mem_cons_self _ _)
      omega

theorem two_mem_le_sum_map {γ : Type} {l : List γ} {f : γ → Int}
    (hpos : ∀ a ∈ l, 0 ≤ f a) {a b : γ} (ha : a ∈ l) (hb : b ∈ l) (hne : a ≠ b) :
    f a + f b ≤ (l.map f).sum := by
  induction l with
  | nil => cases ha
  | cons hd tl ih =>
    rw [List.map_cons, List.sum_cons]
    rcases List.mem_cons.mp ha with h1 | h1
    · subst h1
      have hbtl : b ∈ tl := by
        rcases List.mem_cons.mp hb with h2 | h2
        · exact absurd h2.symm hne
        · exact h2
      have := mem_le_sum_map (fun x hx => hpos x (List.mem_cons_of_mem _ hx)) hbtl
      omega
    · rcases List.mem_cons.mp hb with h2 | h2
      · subst h2
        have := mem_le_sum_map (fun x hx => hpos x (List.mem_cons_of_mem _ hx)) h1
        omega
      · have := ih (fun x hx => hpos x (List.mem_cons_of_mem _ hx)) h1 h2
        have h3 : 0 ≤ f hd := hpos hd (List.mem_cons_self _ _)
        omega

/-! ## Infrastructure: `enum` -/

theorem enumFrom_get? {γ : Type} (l : List γ) (n i : Nat) :
    (l.enumFrom n).get? i = (l.get? i).map (fun a => (n + i, a)) := by
  induction l generalizing n i with
  | nil => simp [List.enumFrom]
  | cons hd tl ih =>
    cases i with
    | zero => simp [List.enumFrom]
    | succ j =>
      simp only [List.enumFrom, List.get?]
      rw [ih (n + 1) j]
      cases hl : tl.get? j with
      | none => rfl
      | some a =>
        simp only [Option.map_some']
        have h2 : n + 1 + j = n + (j + 1) := by omega
        rw [h2]

theorem enum_get? {γ : Type} (l : List γ) (i : Nat) :
    l.enum.get? i = (l.get? i).map (fun a => (i, a)) := by
  rw [List.enum, enumFrom_get?]
  congr 1
  funext a
  congr 2
  omega

theorem mem_enum_iff_get? {γ : Type} {l : List γ} {i : Nat} {a : γ} :
    (i, a) ∈ l.enum ↔ l.get? i = some a := by
  constructor
  · intro h
    obtain ⟨n, hn⟩ := List.get_of_mem h
    have h2 : l.enum.get? n = some (i, a) := by
      rw [List.get?_eq_get]
      exact congrArg some hn
    rw [enum_get?] at h2
    cases hl : l.get? n with
    | none => rw [hl] at h2; cases h2
    | some b =>
      rw [hl] at h2
      simp only [Option.map_some'] at h2
      have h3 := Option.some.inj h2
      have h4 : n = i := congrArg Prod.fst h3
      have h5 : b = a := congrArg Prod.snd h3
      rw [← h4, hl, h5]
  · intro h
    have h2 : l.enum.get? i = some (i, a) := by
      rw [enum_get?, h]
      rfl
    exact List.get?_mem h2

/-! ## Infrastructure: lookups through the folds -/

theorem dictLookup_outerUpdateD {β : Type} (d : List (Int × List β)) (c' c : Int)
    (f : List β → List β) :
    dictLookup (outerUpdateD d c' f) c =
      if c = c' then (dictLookup d c).map f else dictLookup d c := by
  unfold outerUpdateD dictLookup
  rw [List.find?_map]
  by_cases heq : c = c'
  · subst heq
    have hpred : (fun kv : Int × List β => decide (kv.1 = c)) ∘
        (fun kv : Int × List β => if kv.1 = c then (kv.1, f kv.2) else kv) =
        fun kv : Int × List β => decide (kv.1 = c) := by
      funext kv
      by_cases h1 : kv.1 = c <;> simp [h1]
    rw [hpred, if_pos rfl]
    cases hfind : d.find? (fun kv => decide (kv.1 = c)) with
    | none => simp
    | some kv0 =>
      have hfst : kv0.1 = c := by simpa using List.find?_some hfind
      simp [hfst]
  · have hpred : (fun kv : Int × List β => decide (kv.1 = c)) ∘
        (fun kv : Int × List β => if kv.1 = c' then (kv.1, f kv.2) else kv) =
        fun kv : Int × List β => decide (kv.1 = c) := by
      funext kv
      by_cases h1 : kv.1 = c' <;> simp [h1]
    rw [hpred, if_neg heq]
    cases hfind : d.find? (fun kv => decide (kv.1 = c)) with
    | none => simp
    | some kv0 =>
      have hfst : kv0.1 = c := by simpa using List.find?_some hfind
      have : (if kv0.1 = c' then (kv0.1, f kv0.2) else kv0) = kv0 := by
        rw [if_neg (by rw [hfst]; exact heq)]
      simp [this]

/-- Looking up one class after the whole outer fold: the inner value is the
fold of the per-class updates over the matching elements. -/
theorem foldl_outerUpdateD_lookup {α β : Type} (key : α → Int)
    (upd : α → List β → List β) (l : List α) (d0 : List (Int × List β)) (c : Int)
    {inner0 : List β} (h : dictLookup d0 c = some inner0) :
    dictLookup (l.foldl (fun d a => outerUpdateD d (key a) (upd a)) d0) c =
      some ((l.filter (fun a => key a = c)).foldl (fun inner a => upd a inner) inner0) := by
  induction l generalizing d0 inner0 with
  | nil => simpa using h
  | cons hd tl ih =>
    rw [List.foldl_cons, List.filter_cons]
    by_cases h1 : key hd = c
    · have hlook : dictLookup (outerUpdateD d0 (key hd) (upd hd)) c = some (upd hd inner0) := by
        rw [dictLookup_outerUpdateD, if_pos h1.symm, h]
        rfl
      rw [ih _ hlook]
      simp [h1]
    · have hlook : dictLookup (outerUpdateD d0 (key hd) (upd hd)) c = some inner0 := by
        rw [dictLookup_outerUpdateD, if_neg (fun h2 => h1 h2.symm), h]
      rw [ih _ hlook]
      simp [h1]

theorem dictLookup_initOuter {N : Nat} {β : Type} {c : Int}
    (h : 1 ≤ c ∧ c ≤ (N : Int)) :
    dictLookup (initOuter N β) c = some [] := by
  have hmem : c ∈ (initOuter N β).map Prod.fst := mem_initOuter_fst.mpr h
  obtain ⟨kv, hkv, hfst⟩ := List.mem_map.mp hmem
  have hsome : (List.find? (fun kv => decide (kv.1 = c)) (initOuter N β)).isSome := by
    rw [List.find?_isSome]
    exact ⟨kv, hkv, by simp [hfst]⟩
  obtain ⟨kv0, hkv0⟩ := Option.isSome_iff_exists.mp hsome
  have hmem0 := List.mem_of_find?_eq_some hkv0
  obtain ⟨i, _, hval⟩ := List.mem_map.mp (by
    show kv0 ∈ (List.range N).map (fun i : Nat => ((i : Int) + 1, ([] : List β)))
    exact hmem0)
  unfold dictLookup
  rw [hkv0, ← hval]
  rfl

/-- The inner dict of class `c` after `buildSPCD` is the `dictInsert` fold of
the mappings whose class id is `c`. -/
theorem buildSPCD_lookup {N : Nat} (ms : List STMapping) {c : Int}
    (h : 1 ≤ c ∧ c ≤ (N : Int)) :
    dictLookup (buildSPCD N ms) c =
      some ((ms.filter (fun m => m.class_id = c)).foldl
        (fun inner m => dictInsert inner m.subject m.teacher) []) := by
  unfold buildSPCD
  exact foldl_outerUpdateD_lookup _ _ ms _ c (dictLookup_initOuter h)

theorem buildSPDD_lookup {N : Nat} (ms : List SPMapping) {c : Int}
    (h : 1 ≤ c ∧ c ≤ (N : Int)) :
    dictLookup (buildSPDD N ms) c =
      some ((ms.filter (fun m => m.class_id = c)).foldl
        (fun inner m => dictInsert inner m.subject m.periodsPerWeek) []) := by
  unfold buildSPDD
  exact foldl_outerUpdateD_lookup _ _ ms _ c (dictLookup_initOuter h)

/-- A successful lookup in a `dictInsert` fold comes from some element of the
folded list (or from the initial dictionary). -/
theorem dictInsert_fold_lookup_mem {γ β : Type} (l : List γ) (ks : γ → String)
    (vs : γ → β) (inner0 : List (String × β)) (s : String) (t : β)
    (h : dictLookup (l.foldl (fun inner a => dictInsert inner (ks a) (vs a)) inner0) s =
      some t) :
    (∃ a ∈ l, ks a = s ∧ vs a = t) ∨ dictLookup inner0 s = some t := by
  induction l generalizing inner0 with
  | nil => exact Or.inr (by simpa using h)
  | cons hd tl ih =>
    rw [List.foldl_cons] at h
    rcases ih _ h with h1 | h1
    · obtain ⟨a, ha, hks, hvs⟩ := h1
      exact Or.inl ⟨a, List.mem_cons_of_mem _ ha, hks, hvs⟩
    · rw [dictLookup_dictInsert] at h1
      by_cases h2 : s = ks hd
      · rw [if_pos h2] at h1
        exact Or.inl ⟨hd, List.mem_cons_self _ _, h2.symm, Option.some.inj h1⟩
      · rw [if_neg h2] at h1
        exact Or.inr h1

/-! ## Infrastructure: teacher dictionaries -/

theorem teacherIndividual_lookup (ms : List STMapping) (groups : List GroupClass)
    (t : String) :
    dictLookupD (teacherIndividual ms groups) t [] =
      ((ms.filter (fun m => !(inGroupAssignment groups m.class_id m.subject))).filter
        (fun m => m.teacher = t)).map (fun m => (m.class_id, m.subject)) := by
  unfold teacherIndividual
  rw [foldl_skip_eq_filter (fun m => inGroupAssignment groups m.class_id m.subject)
    (fun d m => dictUpsert d m.teacher (m.class_id, m.subject)) ms []]
  rw [foldl_dictUpsert_lookup (fun m : STMapping => m.teacher)
    (fun m : STMapping => (m.class_id, m.subject)) _ [] t]
  simp [dictLookupD, dictLookup]

theorem teacherGroup_lookup (groups : List GroupClass) (t : String) :
    dictLookupD (teacherGroup groups) t [] =
      (groups.enum.filter (fun ig => ig.2.teacher = t)).map Prod.fst := by
  unfold teacherGroup
  rw [foldl_dictUpsert_lookup (fun ig : Nat × GroupClass => ig.2.teacher)
    (fun ig : Nat × GroupClass => ig.1) _ [] t]
  simp [dictLookupD, dictLookup]

theorem teacherGroup_lookup_nodup (groups : List GroupClass) (t : String) :
    (dictLookupD (teacherGroup groups) t []).Nodup := by
  rw [teacherGroup_lookup]
  have h2 : ((groups.enum.filter (fun ig => ig.2.teacher = t)).map Prod.fst).Sublist
      (groups.enum.map Prod.fst) := (List.filter_sublist _).map _
  rw [List.enum_map_fst] at h2
  exact (List.nodup_range _).sublist h2

theorem mem_teacherGroup_lookup {groups : List GroupClass} {i : Nat} {t : String} :
    i ∈ dictLookupD (teacherGroup groups) t [] ↔
      ∃ g, groups.get? i = some g ∧ g.teacher = t := by
  rw [teacherGroup_lookup]
  constructor
  · intro h
    obtain ⟨ig, hig, hfst⟩ := List.mem_map.mp h
    obtain ⟨hmem, ht⟩ := List.mem_filter.mp hig
    obtain ⟨j, g⟩ := ig
    cases hfst
    exact ⟨g, mem_enum_iff_get?.mp hmem, of_decide_eq_true ht⟩
  · rintro ⟨g, hget, ht⟩
    exact List.mem_map.mpr ⟨(i, g),
      List.mem_filter.mpr ⟨mem_enum_iff_get?.mpr hget, decide_eq_true ht⟩, rfl⟩

theorem mem_teacherIndividual_lookup {ms : List STMapping} {groups : List GroupClass}
    {c : Int} {s t : String} :
    (c, s) ∈ dictLookupD (teacherIndividual ms groups) t [] ↔
      ∃ m ∈ ms, m.class_id = c ∧ m.subject = s ∧ m.teacher = t ∧
        inGroupAssignment groups c s = false := by
  rw [teacherIndividual_lookup]
  constructor
  · intro h
    obtain ⟨m, hm, hpair⟩ := List.mem_map.mp h
    obtain ⟨hm2, ht⟩ := List.mem_filter.mp hm
    obtain ⟨hm3, hng⟩ := List.mem_filter.mp hm2
    have hc : m.class_id = c := congrArg Prod.fst hpair
    have hs : m.subject = s := congrArg Prod.snd hpair
    refine ⟨m, hm3, hc, hs, of_decide_eq_true ht, ?_⟩
    rw [← hc, ← hs]
    simpa using hng
  · rintro ⟨m, hm, hc, hs, ht, hng⟩
    refine List.mem_map.mpr ⟨m, List.mem_filter.mpr ⟨List.mem_filter.mpr ⟨hm, ?_⟩,
      decide_eq_true ht⟩, by rw [hc, hs]⟩
    rw [hc, hs]
    simp [hng]

/-! ## Infrastructure: inverting the model builder -/

theorem exbind_ok {α β : Type} {e : Except PyErr α} {f : α → Except PyErr β} {b : β} :
    (e >>= f) = Except.ok b ↔ ∃ a, e = Except.ok a ∧ f a = Except.ok b := by
  cases e with
  | error e2 =>
    constructor
    · intro h
      cases h
    · rintro ⟨a, ha, _⟩
      cases ha
  | ok a =>
    constructor
    · intro h
      exact ⟨a, rfl, h⟩
    · rintro ⟨a2, ha, hf⟩
      cases ha
      exact hf

theorem expure_eq_ok {α : Type} (a : α) : (pure a : Except PyErr α) = Except.ok a := rfl

/-- What a successful `buildAll` yields: the two dictionaries, the group
constraints, the concatenated constraint list and the zero objective. -/
theorem buildAll_ok_parts {cfg : Config} {ctx : Ctx} (h : buildAll cfg = Except.ok ctx) :
    buildSPC cfg.numClasses cfg.subjectTeacherMappings = Except.ok ctx.spcO ∧
    buildSPD cfg.numClasses cfg.subjectPeriodMappings = Except.ok ctx.spdO ∧
    ∃ gcons, buildGroupCons ctx.spcO cfg.groupClasses = Except.ok gcons ∧
      ctx.model.constraints =
        periodReqCons ctx.spcO ctx.spdO cfg.groupClasses ++ gcons ++
        groupOncePerDayCons cfg.groupClasses ++ oneSubjectCons ctx.spcO ++
        teacherCons (teacherIndividual cfg.subjectTeacherMappings cfg.groupClasses)
          (teacherGroup cfg.groupClasses) ++
        maxTwoIndivCons ctx.spcO cfg.groupClasses ++ maxTwoGroupCons cfg.groupClasses ∧
      ctx.model.objective = [] := by
  unfold buildAll at h
  obtain ⟨spcO, hspc, h⟩ := exbind_ok.mp h
  obtain ⟨spdO, hspd, h⟩ := exbind_ok.mp h
  obtain ⟨gcons, hg, h⟩ := exbind_ok.mp h
  rw [expure_eq_ok] at h
  cases Except.ok.inj h
  exact ⟨hspc, hspd, gcons, hg, rfl, rfl⟩

/-- Inside a successful `buildGroupCons`: each group contributes a block. -/
theorem buildGroupCons_ok_block {spcO : List (Int × List (String × String))}
    {groups : List GroupClass} {gcons : List LinCon}
    (h : buildGroupCons spcO groups = Except.ok gcons)
    {i : Nat} {g : GroupClass} (hg : groups.get? i = some g) :
    ∃ sub, groupConsFor spcO i g = Except.ok sub ∧ ∀ c ∈ sub, c ∈ gcons := by
  unfold buildGroupCons at h
  obtain ⟨ls, hls, h⟩ := exbind_ok.mp h
  rw [expure_eq_ok] at h
  cases Except.ok.inj h
  obtain ⟨sub, hsub, hmem⟩ := mapE_ok_mem hls (mem_enum_iff_get?.mpr hg)
  exact ⟨sub, hsub, fun c hc => List.mem_flatten.mpr ⟨sub, hmem, hc⟩⟩

/-- Inside a successful `groupConsFor`: the per-period blocks and the final
sum constraint. -/
theorem groupConsFor_ok_parts {spcO : List (Int × List (String × String))}
    {i : Nat} {g : GroupClass} {sub : List LinCon}
    (h : groupConsFor spcO i g = Except.ok sub) :
    gSumCon i g.periodsPerWeek ∈ sub ∧
    ∀ p < 36, ∃ ties, groupTies spcO g i p = Except.ok ties ∧
      (∀ c ∈ ties, c ∈ sub) ∧
      (allowedPeriod g p = false → gZeroCon i p ∈ sub) := by
  unfold groupConsFor at h
  obtain ⟨per, hper, h⟩ := exbind_ok.mp h
  rw [expure_eq_ok] at h
  cases Except.ok.inj h
  constructor
  · exact List.mem_append_right _ (List.mem_singleton.mpr rfl)
  · intro p hp
    have hpmem : p ∈ weekPeriods := List.mem_range.mpr hp
    obtain ⟨pl, hpl, hplmem⟩ := mapE_ok_mem hper hpmem
    obtain ⟨ties, hties, hpl2⟩ := exbind_ok.mp hpl
    rw [expure_eq_ok] at hpl2
    cases Except.ok.inj hpl2
    refine ⟨ties, hties, ?_, ?_⟩
    · intro c hc
      exact List.mem_append_left _ (List.mem_flatten.mpr
        ⟨_, hplmem, List.mem_append_right _ hc⟩)
    · intro hnal
      refine List.mem_append_left _ (List.mem_flatten.mpr
        ⟨_, hplmem, List.mem_append_left _ ?_⟩)
      rw [hnal]
      exact List.mem_singleton.mpr rfl

/-- A successful `groupTies` contains the tie constraint of every member
class, and certifies that the schedule variable exists. -/
theorem groupTies_ok_mem {spcO : List (Int × List (String × String))}
    {g : GroupClass} {i p : Nat} {ties : List LinCon}
    (h : groupTies spcO g i p = Except.ok ties) {c : Int} (hc : c ∈ g.classes) :
    tieCon c g.subject i p ∈ ties ∧ varExists spcO c g.subject = true := by
  unfold groupTies at h
  obtain ⟨b, hb, hmem⟩ := mapE_ok_mem h hc
  by_cases hv : varExists spcO c g.subject = true
  · rw [if_pos hv] at hb
    cases Except.ok.inj hb
    exact ⟨hmem, hv⟩
  · rw [if_neg hv] at hb
    cases hb

/-- The tie constraint of a member class of group `i` is in the model of any
successful build, and its schedule variable exists. -/
theorem buildAll_ok_tie {cfg : Config} {ctx : Ctx} (h : buildAll cfg = Except.ok ctx)
    {i : Nat} {g : GroupClass} (hg : cfg.groupClasses.get? i = some g)
    {c : Int} (hc : c ∈ g.classes) {p : Nat} (hp : p < 36) :
    tieCon c g.subject i p ∈ ctx.model.constraints ∧
    varExists ctx.spcO c g.subject = true := by
  obtain ⟨_, _, gcons, hgc, hcons, _⟩ := buildAll_ok_parts h
  obtain ⟨sub, hsub, hsubmem⟩ := buildGroupCons_ok_block hgc hg
  obtain ⟨_, hper⟩ := groupConsFor_ok_parts hsub
  obtain ⟨ties, hties, htiesmem, _⟩ := hper p hp
  obtain ⟨htie, hvar⟩ := groupTies_ok_mem hties hc
  refine ⟨?_, hvar⟩
  rw [hcons]
  exact List.mem_append_left _ (List.mem_append_left _ (List.mem_append_left _
    (List.mem_append_left _ (List.mem_append_left _ (List.mem_append_right _
      (hsubmem _ (htiesmem _ htie)))))))

/-- The weekly sum constraint of group `i` is in the model of any successful
build. -/
theorem buildAll_ok_gSum {cfg : Config} {ctx : Ctx} (h : buildAll cfg = Except.ok ctx)
    {i : Nat} {g : GroupClass} (hg : cfg.groupClasses.get? i = some g) :
    gSumCon i g.periodsPerWeek ∈ ctx.model.constraints := by
  obtain ⟨_, _, gcons, hgc, hcons, _⟩ := buildAll_ok_parts h
  obtain ⟨sub, hsub, hsubmem⟩ := buildGroupCons_ok_block hgc hg
  obtain ⟨hsum, _⟩ := groupConsFor_ok_parts hsub
  rw [hcons]
  exact List.mem_append_left _ (List.mem_append_left _ (List.mem_append_left _
    (List.mem_append_left _ (List.mem_append_left _ (List.mem_append_right _
      (hsubmem _ hsum))))))

/-- The forced-zero constraint of an inadmissible period is in the model of
any successful build. -/
theorem buildAll_ok_gZero {cfg : Config} {ctx : Ctx} (h : buildAll cfg = Except.ok ctx)
    {i : Nat} {g : GroupClass} (hg : cfg.groupClasses.get? i = some g)
    {p : Nat} (hp : p < 36) (hnal : allowedPeriod g p = false) :
    gZeroCon i p ∈ ctx.model.constraints := by
  obtain ⟨_, _, gcons, hgc, hcons, _⟩ := buildAll_ok_parts h
  obtain ⟨sub, hsub, hsubmem⟩ := buildGroupCons_ok_block hgc hg
  obtain ⟨_, hper⟩ := groupConsFor_ok_parts hsub
  obtain ⟨ties, _, _, hz⟩ := hper p hp
  rw [hcons]
  exact List.mem_append_left _ (List.mem_append_left _ (List.mem_append_left _
    (List.mem_append_left _ (List.mem_append_left _ (List.mem_append_right _
      (hsubmem _ (hz hnal)))))))

/-- The demand constraint of a declared non-group pair is in the model. -/
theorem buildAll_ok_periodReq {cfg : Config} {ctx : Ctx}
    (h : buildAll cfg = Except.ok ctx) {c : Int} {inner : List (String × String)}
    (hci : (c, inner) ∈ ctx.spcO) {s t : String} (hst : (s, t) ∈ inner)
    (hng : inGroupAssignment cfg.groupClasses c s = false) :
    periodReqCon c s (demandOf ctx.spdO c s) ∈ ctx.model.constraints := by
  obtain ⟨_, _, gcons, _, hcons, _⟩ := buildAll_ok_parts h
  rw [hcons]
  refine List.mem_append_left _ (List.mem_append_left _ (List.mem_append_left _
    (List.mem_append_left _ (List.mem_append_left _ (List.mem_append_left _ ?_)))))
  unfold periodReqCons
  refine List.mem_flatMap.mpr ⟨(c, inner), hci, ?_⟩
  refine List.mem_flatMap.mpr ⟨(s, t), hst, ?_⟩
  rw [hng]
  simp

/-- The one-subject-per-period constraint of every class key is in the
model. -/
theorem buildAll_ok_oneSubject {cfg : Config} {ctx : Ctx}
    (h : buildAll cfg = Except.ok ctx) {c : Int} {inner : List (String × String)}
    (hci : (c, inner) ∈ ctx.spcO) {p : Nat} (hp : p < 36) :
    (⟨inner.map (fun st => ((1 : Int), Var.x c st.1 p)), Cmp.le, 1⟩ : LinCon) ∈
      ctx.model.constraints := by
  obtain ⟨_, _, gcons, _, hcons, _⟩ := buildAll_ok_parts h
  rw [hcons]
  refine List.mem_append_left _ (List.mem_append_left _ (List.mem_append_left _
    (List.mem_append_right _ ?_)))
  unfold oneSubjectCons
  exact List.mem_flatMap.mpr ⟨(c, inner), hci,
    List.mem_map.mpr ⟨p, List.mem_range.mpr hp, rfl⟩⟩

/-- The availability constraint of every teacher key is in the model. -/
theorem buildAll_ok_teacher {cfg : Config} {ctx : Ctx}
    (h : buildAll cfg = Except.ok ctx) {t : String}
    (ht : t ∈ allTeachers (teacherIndividual cfg.subjectTeacherMappings cfg.groupClasses)
      (teacherGroup cfg.groupClasses)) {p : Nat} (hp : p < 36) :
    teacherCon (teacherIndividual cfg.subjectTeacherMappings cfg.groupClasses)
      (teacherGroup cfg.groupClasses) t p ∈ ctx.model.constraints := by
  obtain ⟨_, _, gcons, _, hcons, _⟩ := buildAll_ok_parts h
  rw [hcons]
  refine List.mem_append_left _ (List.mem_append_left _ (List.mem_append_right _ ?_))
  unfold teacherCons
  exact List.mem_flatMap.mpr ⟨t, ht, List.mem_map.mpr ⟨p, List.mem_range.mpr hp, rfl⟩⟩

/-! ## Infrastructure: the grid -/

theorem listModify_get? {α : Type} (f : α → α) (n m : Nat) (l : List α) :
    (listModify f n l).get? m = if n = m then (l.get? m).map f else l.get? m := by
  induction l generalizing n m with
  | nil => cases n <;> simp [listModify]
  | cons hd tl ih =>
    cases n with
    | zero =>
      cases m with
      | zero => simp [listModify]
      | succ m2 => simp [listModify]
    | succ n2 =>
      cases m with
      | zero => simp [listModify]
      | succ m2 =>
        simp only [listModify, List.get?]
        rw [ih n2 m2]
        by_cases h : n2 = m2 <;> simp [h]

theorem listModify_length {α : Type} (f : α → α) (n : Nat) (l : List α) :
    (listModify f n l).length = l.length := by
  induction l generalizing n with
  | nil => cases n <;> rfl
  | cons hd tl ih =>
    cases n with
    | zero => rfl
    | succ n2 => simp [listModify, ih n2]

theorem listSet_get? {α : Type} (l : List α) (n : Nat) (a : α) (m : Nat) :
    (l.set n a).get? m = if n = m ∧ n < l.length then some a else l.get? m := by
  induction l generalizing n m with
  | nil => cases n <;> simp
  | cons hd tl ih =>
    cases n with
    | zero =>
      cases m with
      | zero => simp
      | succ m2 => simp
    | succ n2 =>
      cases m with
      | zero => simp
      | succ m2 =>
        simp only [List.set, List.get?, List.length_cons]
        rw [ih n2 m2]
        by_cases h : n2 = m2 ∧ n2 < tl.length
        · rw [if_pos h, if_pos ⟨by omega, by omega⟩]
        · rw [if_neg h, if_neg (by omega)]

theorem listModify_mem {α : Type} {f : α → α} {n : Nat} {l : List α} {a : α}
    (h : a ∈ listModify f n l) : (∃ b ∈ l, a = f b) ∨ a ∈ l := by
  induction l generalizing n with
  | nil =>
    rw [show listModify f n [] = [] from by cases n <;> rfl] at h
    cases h
  | cons hd tl ih =>
    cases n with
    | zero =>
      rcases List.mem_cons.mp h with h1 | h1
      · exact Or.inl ⟨hd, List.mem_cons_self _ _, h1⟩
      · exact Or.inr (List.mem_cons_of_mem _ h1)
    | succ n2 =>
      rcases List.mem_cons.mp h with h1 | h1
      · exact Or.inr (h1 ▸ List.mem_cons_self _ _)
      · rcases ih h1 with ⟨b, hb, hab⟩ | h2
        · exact Or.inl ⟨b, List.mem_cons_of_mem _ hb, hab⟩
        · exact Or.inr (List.mem_cons_of_mem _ h2)

theorem gridDims_emptyGrid (N : Nat) : GridDims N (emptyGrid N) := by
  refine ⟨by simp [emptyGrid], ?_⟩
  intro day hday
  rw [List.eq_of_mem_replicate hday]
  refine ⟨by simp, ?_⟩
  intro row hrow
  rw [List.eq_of_mem_replicate hrow]
  simp

theorem gridDims_gridSet {N : Nat} {grid : Grid} (h : GridDims N grid)
    (d k j : Nat) (v : Option Cell) : GridDims N (gridSet grid d k j v) := by
  obtain ⟨hlen, hday⟩ := h
  unfold gridSet
  refine ⟨by rw [listModify_length]; exact hlen, ?_⟩
  intro day hmem
  rcases listModify_mem hmem with ⟨day0, hday0, rfl⟩ | hmem2
  · obtain ⟨hdlen, hrow⟩ := hday day0 hday0
    refine ⟨by rw [listModify_length]; exact hdlen, ?_⟩
    intro row hrmem
    rcases listModify_mem hrmem with ⟨row0, hrow0, rfl⟩ | hrmem2
    · rw [List.length_set]
      exact hrow row0 hrow0
    · exact hrow row hrmem2
  · exact hday day hmem2

theorem getCell_gridSet {N : Nat} {grid : Grid} (hdims : GridDims N grid)
    {d k j d' k' j' : Nat} (hd : d < 6) (hk : k < 6) (hj : j < N)
    (v : Option Cell) :
    getCell (gridSet grid d' k' j' v) d k j =
      if d = d' ∧ k = k' ∧ j = j' then some v else getCell grid d k j := by
  obtain ⟨hlen, hdayall⟩ := hdims
  obtain ⟨day, hday⟩ : ∃ day, grid.get? d = some day :=
    ⟨_, List.get?_eq_get (by omega)⟩
  obtain ⟨hdlen, hrowall⟩ := hdayall day (List.get?_mem hday)
  obtain ⟨row, hrow⟩ : ∃ row, day.get? k = some row :=
    ⟨_, List.get?_eq_get (by omega)⟩
  have hrlen : row.length = N := hrowall row (List.get?_mem hrow)
  unfold getCell gridSet
  rw [listModify_get?]
  by_cases hdd : d' = d
  · rw [if_pos hdd, hday]
    simp only [Option.map_some', Option.some_bind]
    rw [listModify_get?]
    by_cases hkk : k' = k
    · rw [if_pos hkk, hrow]
      simp only [Option.map_some', Option.some_bind]
      rw [listSet_get?]
      by_cases hjj : j' = j
      · rw [if_pos ⟨hjj, by omega⟩, if_pos ⟨hdd.symm, hkk.symm, hjj.symm⟩]
      · have h1 : ¬(j' = j ∧ j' < row.length) := fun hc => hjj hc.1
        rw [if_neg h1, if_neg (fun hc => hjj hc.2.2.symm)]
    · rw [if_neg hkk, if_neg (fun hc => hkk hc.2.1.symm)]
  · rw [if_neg hdd, if_neg (fun hc => hdd hc.1.symm)]

/-! ## Infrastructure: characterising the decoder -/

theorem gridDims_foldl_decodePeriod {N : Nat} {σ : Var → Int} {c : Int} {s t : String}
    (ps : List Nat) {grid : Grid} (hdims : GridDims N grid) :
    GridDims N (ps.foldl (decodePeriod σ c s t) grid) := by
  induction ps generalizing grid with
  | nil => exact hdims
  | cons p ps ih =>
    rw [List.foldl_cons]
    apply ih
    unfold decodePeriod
    split
    · exact gridDims_gridSet hdims _ _ _ _
    · exact hdims

theorem foldl_decodePeriod_getCell {N : Nat} {σ : Var → Int} {c : Int} {s t : String}
    {ps : List Nat} (hps : ∀ p ∈ ps, p < 36) {grid : Grid} (hdims : GridDims N grid)
    {d k j : Nat} (hd : d < 6) (hk : k < 6) (hj : j < N) :
    getCell (ps.foldl (decodePeriod σ c s t) grid) d k j =
      if (d * 6 + k) ∈ ps ∧ σ (Var.x c s (d * 6 + k)) = 1 ∧ (c - 1).toNat = j
      then some (some ⟨s, t⟩) else getCell grid d k j := by
  induction ps generalizing grid with
  | nil => simp
  | cons p ps ih =>
    rw [List.foldl_cons]
    have hdims2 : GridDims N (decodePeriod σ c s t grid p) := by
      unfold decodePeriod
      split
      · exact gridDims_gridSet hdims _ _ _ _
      · exact hdims
    rw [ih (fun q hq => hps q (List.mem_cons_of_mem _ hq)) hdims2]
    have hp36 : p < 36 := hps p (List.mem_cons_self _ _)
    by_cases htail : (d * 6 + k) ∈ ps ∧ σ (Var.x c s (d * 6 + k)) = 1 ∧ (c - 1).toNat = j
    · rw [if_pos htail, if_pos ⟨List.mem_cons_of_mem _ htail.1, htail.2⟩]
    · rw [if_neg htail]
      unfold decodePeriod
      by_cases hσ : σ (Var.x c s p) = 1
      · rw [if_pos hσ, getCell_gridSet hdims hd hk hj]
        by_cases hhit : d = p / 6 ∧ k = p % 6 ∧ j = (c - 1).toNat
        · have hpq : p = d * 6 + k := by omega
          rw [if_pos hhit, if_pos ⟨hpq ▸ List.mem_cons_self _ _,
            by rw [← hpq]; exact hσ, hhit.2.2.symm⟩]
        · rw [if_neg hhit, if_neg ?_]
          intro hc2
          rcases List.mem_cons.mp hc2.1 with h1 | h1
          · have hd2 : d = p / 6 := by omega
            have hk2 : k = p % 6 := by omega
            exact hhit ⟨hd2, hk2, hc2.2.2.symm⟩
          · exact htail ⟨h1, hc2.2⟩
      · rw [if_neg hσ, if_neg ?_]
        intro hc2
        rcases List.mem_cons.mp hc2.1 with h1 | h1
        · exact hσ (h1 ▸ hc2.2.1)
        · exact htail ⟨h1, hc2.2⟩

theorem foldl_subjects_getCell {N : Nat} {σ : Var → Int} {c : Int}
    {sts : List (String × String)} {grid : Grid} (hdims : GridDims N grid)
    {d k j : Nat} (hd : d < 6) (hk : k < 6) (hj : j < N) {prev : Option Cell}
    (hprev : getCell grid d k j = some prev) :
    getCell (sts.foldl
      (fun grid st => weekPeriods.foldl (decodePeriod σ c st.1 st.2) grid) grid) d k j =
      some (if (c - 1).toNat = j then sts.foldl (cellStep σ c (d * 6 + k)) prev
            else prev) := by
  induction sts generalizing grid prev with
  | nil =>
    rw [List.foldl_nil, List.foldl_nil, ite_self]
    exact hprev
  | cons st sts ih =>
    rw [List.foldl_cons, List.foldl_cons]
    have hmemq : (d * 6 + k) ∈ weekPeriods := List.mem_range.mpr (by omega)
    have h1 : getCell (weekPeriods.foldl (decodePeriod σ c st.1 st.2) grid) d k j =
        some (if (c - 1).toNat = j then cellStep σ c (d * 6 + k) prev st else prev) := by
      rw [foldl_decodePeriod_getCell
        (fun q (hq : q ∈ weekPeriods) => List.mem_range.mp hq) hdims hd hk hj]
      unfold cellStep
      by_cases hσ : σ (Var.x c st.1 (d * 6 + k)) = 1
      · by_cases hjeq : (c - 1).toNat = j
        · rw [if_pos ⟨hmemq, hσ, hjeq⟩, if_pos hjeq, if_pos hσ]
        · rw [if_neg (fun hc2 => hjeq hc2.2.2), if_neg hjeq]
          exact hprev
      · rw [if_neg (fun hc2 => hσ hc2.2.1), hprev]
        by_cases hjeq : (c - 1).toNat = j
        · rw [if_pos hjeq, if_neg hσ]
        · rw [if_neg hjeq]
    have hdims1 : GridDims N (weekPeriods.foldl (decodePeriod σ c st.1 st.2) grid) :=
      gridDims_foldl_decodePeriod _ hdims
    rw [ih hdims1 h1]
    by_cases hjeq : (c - 1).toNat = j
    · rw [if_pos hjeq, if_pos hjeq, if_pos hjeq]
    · rw [if_neg hjeq, if_neg hjeq, if_neg hjeq]

theorem gridDims_foldl_subjects {N : Nat} {σ : Var → Int} {c : Int}
    (sts : List (String × String)) {grid : Grid} (hdims : GridDims N grid) :
    GridDims N (sts.foldl
      (fun grid st => weekPeriods.foldl (decodePeriod σ c st.1 st.2) grid) grid) := by
  induction sts generalizing grid with
  | nil => exact hdims
  | cons st sts ih =>
    rw [List.foldl_cons]
    exact ih (gridDims_foldl_decodePeriod _ hdims)

theorem foldl_classes_getCell {N : Nat} {σ : Var → Int}
    {l : List (Int × List (String × String))} (hkeys1 : ∀ ci ∈ l, 1 ≤ ci.1)
    {grid : Grid} (hdims : GridDims N grid)
    {d k j : Nat} (hd : d < 6) (hk : k < 6) (hj : j < N) {prev : Option Cell}
    (hprev : getCell grid d k j = some prev) :
    getCell (l.foldl
      (fun grid ci =>
        ci.2.foldl (fun grid st => weekPeriods.foldl (decodePeriod σ ci.1 st.1 st.2) grid)
          grid) grid) d k j =
      some (l.foldl
        (fun acc ci =>
          if (ci.1 - 1).toNat = j then ci.2.foldl (cellStep σ ci.1 (d * 6 + k)) acc
          else acc) prev) := by
  induction l generalizing grid prev with
  | nil =>
    rw [List.foldl_nil, List.foldl_nil]
    exact hprev
  | cons ci l ih =>
    rw [List.foldl_cons, List.foldl_cons]
    have h1 := @foldl_subjects_getCell N σ ci.1 ci.2 grid hdims d k j hd hk hj prev hprev
    have hdims1 : GridDims N (ci.2.foldl
        (fun grid st => weekPeriods.foldl (decodePeriod σ ci.1 st.1 st.2) grid) grid) :=
      gridDims_foldl_subjects _ hdims
    exact ih (fun ci2 hci2 => hkeys1 ci2 (List.mem_cons_of_mem _ hci2)) hdims1 h1

theorem gridDims_foldl_classes {N : Nat} {σ : Var → Int}
    (l : List (Int × List (String × String))) {grid : Grid} (hdims : GridDims N grid) :
    GridDims N (l.foldl
      (fun grid ci =>
        ci.2.foldl (fun grid st => weekPeriods.foldl (decodePeriod σ ci.1 st.1 st.2) grid)
          grid) grid) := by
  induction l generalizing grid with
  | nil => exact hdims
  | cons ci l ih =>
    rw [List.foldl_cons]
    exact ih (gridDims_foldl_subjects _ hdims)

theorem gridDims_decodeSchedule (N : Nat) (spcO : List (Int × List (String × String)))
    (σ : Var → Int) : GridDims N (decodeSchedule N spcO σ) :=
  gridDims_foldl_classes spcO (gridDims_emptyGrid N)

theorem replicate_get? {α : Type} (n m : Nat) (a : α) :
    (List.replicate n a).get? m = if m < n then some a else none := by
  induction n generalizing m with
  | zero => cases m <;> simp
  | succ n2 ih =>
    cases m with
    | zero => simp [List.replicate]
    | succ m2 =>
      simp only [List.replicate, List.get?]
      rw [ih m2]
      by_cases h : m2 < n2
      · rw [if_pos h, if_pos (by omega)]
      · rw [if_neg h, if_neg (by omega)]

theorem getCell_emptyGrid {N d k j : Nat} (hd : d < 6) (hk : k < 6) (hj : j < N) :
    getCell (emptyGrid N) d k j = some none := by
  unfold getCell emptyGrid
  rw [replicate_get?, if_pos hd]
  simp only [Option.some_bind]
  rw [replicate_get?, if_pos hk]
  simp only [Option.some_bind]
  rw [replicate_get?, if_pos hj]

theorem foldl_ite_eq_filter {α β : Type} (P : α → Prop) [DecidablePred P]
    (f : α → β → β) (l : List α) (b0 : β) :
    l.foldl (fun acc a => if P a then f a acc else acc) b0 =
      (l.filter (fun a => decide (P a))).foldl (fun acc a => f a acc) b0 := by
  induction l generalizing b0 with
  | nil => rfl
  | cons hd tl ih =>
    rw [List.foldl_cons, List.filter_cons]
    by_cases h : P hd
    · rw [if_pos h, decide_eq_true h, if_pos rfl, List.foldl_cons]
      exact ih _
    · rw [if_neg h, decide_eq_false h, if_neg Bool.false_ne_true]
      exact ih _

theorem dictLookup_some_mem {α β : Type} [DecidableEq α] {d : List (α × β)}
    {k : α} {v : β} (h : dictLookup d k = some v) : (k, v) ∈ d := by
  unfold dictLookup at h
  cases hfind : d.find? (fun kv => kv.1 = k) with
  | none => rw [hfind] at h; cases h
  | some kv =>
    rw [hfind] at h
    have hmem := List.mem_of_find?_eq_some hfind
    have hfst : kv.1 = k := by simpa using List.find?_some hfind
    have hsnd : kv.2 = v := Option.some.inj h
    have : kv = (k, v) := by
      rw [← hfst, ← hsnd]
    exact this ▸ hmem

theorem filter_keyEq_eq_singleton {γ : Type} {l : List (Int × γ)}
    (hnd : (l.map Prod.fst).Nodup) {c : Int} {v : γ}
    (hlook : dictLookup l c = some v) :
    l.filter (fun kv => kv.1 = c) = [(c, v)] := by
  induction l with
  | nil => cases hlook
  | cons hd tl ih =>
    rw [List.map_cons] at hnd
    have hnd2 := List.nodup_cons.mp hnd
    rw [List.filter_cons]
    by_cases h1 : hd.1 = c
    · have hdec : (decide (hd.1 = c)) = true := decide_eq_true h1
      rw [hdec, if_pos rfl]
      have hlv : hd.2 = v := by
        unfold dictLookup at hlook
        rw [show List.find? (fun kv => decide (kv.1 = c)) (hd :: tl) = some hd by
          simp [List.find?, hdec]] at hlook
        exact Option.some.inj hlook
      have htl : tl.filter (fun kv => decide (kv.1 = c)) = [] := by
        rw [List.filter_eq_nil_iff]
        intro kv hkv hkc
        apply hnd2.1
        rw [h1]
        have hkc2 : kv.1 = c := of_decide_eq_true hkc
        exact hkc2 ▸ List.mem_map.mpr ⟨kv, hkv, rfl⟩
      rw [htl]
      have heq : hd = (c, v) := by
        rw [← h1, ← hlv]
      rw [heq]
    · have hdec : (decide (hd.1 = c)) = false := decide_eq_false h1
      rw [hdec, if_neg Bool.false_ne_true]
      apply ih hnd2.2
      unfold dictLookup at hlook ⊢
      rw [show List.find? (fun kv => decide (kv.1 = c)) (hd :: tl) =
          List.find? (fun kv => decide (kv.1 = c)) tl by
        simp [List.find?, hdec]] at hlook
      exact hlook

/-- The central decoder characterisation: cell `(d, k, j)` of the decoded
grid is the last-write-wins fold of class `j+1`'s subject dictionary at
period `d*6 + k`. -/
theorem decodeSchedule_getCell {N : Nat} {σ : Var → Int}
    {spcO : List (Int × List (String × String))}
    (hkeys : spcO.map Prod.fst = (List.range N).map (fun i : Nat => (i : Int) + 1))
    {d k j : Nat} (hd : d < 6) (hk : k < 6) (hj : j < N)
    {inner : List (String × String)}
    (hlook : dictLookup spcO ((j : Int) + 1) = some inner) :
    getCell (decodeSchedule N spcO σ) d k j =
      some (inner.foldl (cellStep σ ((j : Int) + 1) (d * 6 + k)) none) := by
  have hkeys1 : ∀ ci ∈ spcO, 1 ≤ ci.1 := by
    intro ci hci
    have : ci.1 ∈ spcO.map Prod.fst := List.mem_map.mpr ⟨ci, hci, rfl⟩
    rw [hkeys] at this
    obtain ⟨i, _, heq⟩ := List.mem_map.mp this
    omega
  have hnd : (spcO.map Prod.fst).Nodup := by
    rw [hkeys]
    exact (List.nodup_range N).map (fun a b hab => by omega)
  unfold decodeSchedule
  rw [foldl_classes_getCell hkeys1 (gridDims_emptyGrid N) hd hk hj
    (getCell_emptyGrid hd hk hj)]
  congr 1
  have hstep : ∀ (acc : Option Cell) (ci : Int × List (String × String)), ci ∈ spcO →
      (if (ci.1 - 1).toNat = j then ci.2.foldl (cellStep σ ci.1 (d * 6 + k)) acc else acc) =
      (if ci.1 = (j : Int) + 1 then ci.2.foldl (cellStep σ ci.1 (d * 6 + k)) acc
       else acc) := by
    intro acc ci hci
    have h1 : 1 ≤ ci.1 := hkeys1 ci hci
    by_cases h2 : ci.1 = (j : Int) + 1
    · rw [if_pos h2, if_pos (by omega)]
    · rw [if_neg h2, if_neg (by omega)]
  -- replace the condition by key equality, elementwise along the fold
  have hfold : ∀ (l : List (Int × List (String × String))), (∀ ci ∈ l, ci ∈ spcO) →
      ∀ acc : Option Cell,
      l.foldl (fun acc ci =>
        if (ci.1 - 1).toNat = j then ci.2.foldl (cellStep σ ci.1 (d * 6 + k)) acc
        else acc) acc =
      l.foldl (fun acc ci =>
        if ci.1 = (j : Int) + 1 then ci.2.foldl (cellStep σ ci.1 (d * 6 + k)) acc
        else acc) acc := by
    intro l
    induction l with
    | nil => intro _ _; rfl
    | cons hd2 tl ih =>
      intro hsub acc
      rw [List.foldl_cons, List.foldl_cons,
        hstep acc hd2 (hsub hd2 (List.mem_cons_self _ _)),
        ih (fun ci hci => hsub ci (List.mem_cons_of_mem _ hci))]
  rw [hfold spcO (fun ci hci => hci) none]
  rw [foldl_ite_eq_filter (fun ci : Int × List (String × String) => ci.1 = (j : Int) + 1)
    (fun ci acc => ci.2.foldl (cellStep σ ci.1 (d * 6 + k)) acc) spcO none]
  rw [filter_keyEq_eq_singleton hnd hlook]
  rfl

/-! ## Infrastructure: the cell fold under uniqueness -/

theorem cellFold_const {σ : Var → Int} {c : Int} {q : Nat}
    {l : List (String × String)} (h : ∀ st ∈ l, ¬σ (Var.x c st.1 q) = 1)
    (acc : Option Cell) : l.foldl (cellStep σ c q) acc = acc := by
  induction l generalizing acc with
  | nil => rfl
  | cons hd tl ih =>
    rw [List.foldl_cons]
    unfold cellStep
    rw [if_neg (h hd (List.mem_cons_self _ _))]
    exact ih (fun st hst => h st (List.mem_cons_of_mem _ hst)) acc

theorem cellFold_some_exists {σ : Var → Int} {c : Int} {q : Nat}
    {l : List (String × String)} {acc : Option Cell} {cell : Cell}
    (h : l.foldl (cellStep σ c q) acc = some cell) :
    (∃ st ∈ l, cell = ⟨st.1, st.2⟩ ∧ σ (Var.x c st.1 q) = 1) ∨ acc = some cell := by
  induction l generalizing acc with
  | nil => exact Or.inr h
  | cons hd tl ih =>
    rw [List.foldl_cons] at h
    rcases ih h with ⟨st, hst, hcell, hσ⟩ | h2
    · exact Or.inl ⟨st, List.mem_cons_of_mem _ hst, hcell, hσ⟩
    · unfold cellStep at h2
      by_cases hσ : σ (Var.x c hd.1 q) = 1
      · rw [if_pos hσ] at h2
        exact Or.inl ⟨hd, List.mem_cons_self _ _, (Option.some.inj h2).symm, hσ⟩
      · rw [if_neg hσ] at h2
        exact Or.inr h2

/-- With unique subject keys and at most one subject of value 1, the cell
fold yields exactly the record of the valued subject. -/
theorem cellFold_eq_some {σ : Var → Int} {c : Int} {q : Nat}
    {l : List (String × String)} (hnd : (l.map Prod.fst).Nodup)
    (hone : ∀ st1 ∈ l, ∀ st2 ∈ l, σ (Var.x c st1.1 q) = 1 →
      σ (Var.x c st2.1 q) = 1 → st1.1 = st2.1)
    {s t : String} (hmem : (s, t) ∈ l) (hσ : σ (Var.x c s q) = 1) :
    ∀ acc, l.foldl (cellStep σ c q) acc = some ⟨s, t⟩ := by
  induction l with
  | nil => cases hmem
  | cons hd tl ih =>
    intro acc
    rw [List.map_cons] at hnd
    have hnd2 := List.nodup_cons.mp hnd
    rw [List.foldl_cons]
    by_cases hhd : hd.1 = s
    · have hhd2 : hd = (s, t) := by
        rcases List.mem_cons.mp hmem with h1 | h1
        · exact h1.symm
        · exact absurd (List.mem_map.mpr ⟨(s, t), h1, hhd ▸ rfl⟩) hnd2.1
      have htl : ∀ st ∈ tl, ¬σ (Var.x c st.1 q) = 1 := by
        intro st hst hσ2
        have := hone st (List.mem_cons_of_mem _ hst) hd (List.mem_cons_self _ _)
          hσ2 (by rw [hhd]; exact hσ)
        exact hnd2.1 (List.mem_map.mpr ⟨st, hst, by rw [← this]⟩)
      rw [show cellStep σ c q acc hd = some ⟨s, t⟩ by
        unfold cellStep
        rw [hhd2, if_pos hσ]]
      exact cellFold_const htl _
    · have hmem2 : (s, t) ∈ tl := by
        rcases List.mem_cons.mp hmem with h1 | h1
        · exact absurd (congrArg Prod.fst h1.symm) hhd
        · exact h1
      exact ih hnd2.2
        (fun st1 h1 st2 h2 => hone st1 (List.mem_cons_of_mem _ h1)
          st2 (List.mem_cons_of_mem _ h2))
        hmem2 _

/-! ## Infrastructure: glue facts about the built context -/

theorem dictInsert_fst_nodup {β : Type} {d : List (String × β)}
    (h : (d.map Prod.fst).Nodup) (k : String) (v : β) :
    ((dictInsert d k v).map Prod.fst).Nodup := by
  unfold dictInsert
  by_cases hk : d.any (fun kv => kv.1 = k)
  · rw [if_pos hk]
    have : (d.map (fun kv => if kv.1 = k then (k, v) else kv)).map Prod.fst =
        d.map Prod.fst := by
      rw [List.map_map]
      apply List.map_congr_left
      intro kv _
      by_cases h1 : kv.1 = k <;> simp [h1]
    rw [this]
    exact h
  · rw [if_neg hk, List.map_append]
    simp only [List.map_cons, List.map_nil]
    rw [List.nodup_append]
    refine ⟨h, List.nodup_singleton k, ?_⟩
    intro a ha hb
    rw [List.mem_singleton] at hb
    subst hb
    obtain ⟨kv, hkv, hfst⟩ := List.mem_map.mp ha
    exact hk (List.any_eq_true.mpr ⟨kv, hkv, by simp [hfst]⟩)

theorem foldl_dictInsert_fst_nodup {γ β : Type} (l : List γ) (ks : γ → String)
    (vs : γ → β) {inner0 : List (String × β)} (h0 : (inner0.map Prod.fst).Nodup) :
    (((l.foldl (fun inner a => dictInsert inner (ks a) (vs a)) inner0)).map
      Prod.fst).Nodup := by
  induction l generalizing inner0 with
  | nil => exact h0
  | cons hd tl ih =>
    rw [List.foldl_cons]
    exact ih (dictInsert_fst_nodup h0 _ _)

theorem dictLookup_of_mem_nodup {α β : Type} [DecidableEq α] {d : List (α × β)}
    (hnd : (d.map Prod.fst).Nodup) {k : α} {v : β} (hmem : (k, v) ∈ d) :
    dictLookup d k = some v := by
  induction d with
  | nil => cases hmem
  | cons hd tl ih =>
    rw [List.map_cons] at hnd
    have hnd2 := List.nodup_cons.mp hnd
    unfold dictLookup
    rcases List.mem_cons.mp hmem with h1 | h1
    · subst h1
      simp [List.find?]
    · have hne : hd.1 ≠ k := by
        intro hc
        exact hnd2.1 (hc ▸ List.mem_map.mpr ⟨(k, v), h1, rfl⟩)
      have hdec : (decide (hd.1 = k)) = false := decide_eq_false hne
      rw [show List.find? (fun kv => decide (kv.1 = k)) (hd :: tl) =
          List.find? (fun kv => decide (kv.1 = k)) tl by
        simp [List.find?, hdec]]
      exact ih hnd2.2 h1

theorem dictLookup_isSome_iff_any {α β : Type} [DecidableEq α] (d : List (α × β))
    (k : α) : (dictLookup d k).isSome = d.any (fun kv => kv.1 = k) := by
  unfold dictLookup
  rw [Option.isSome_map']
  cases hfind : d.find? (fun kv => kv.1 = k) with
  | none =>
    rw [List.find?_eq_none] at hfind
    simp only [Option.isSome_none]
    symm
    rw [List.any_eq_false]
    intro kv hkv
    exact fun hc => hfind kv hkv hc
  | some kv =>
    simp only [Option.isSome_some]
    symm
    rw [List.any_eq_true]
    exact ⟨kv, List.mem_of_find?_eq_some hfind, by simpa using List.find?_some hfind⟩

theorem varExists_iff {spcO : List (Int × List (String × String))} {c : Int}
    {s : String} :
    varExists spcO c s = true ↔
      ∃ inner, dictLookup spcO c = some inner ∧
        (inner.any (fun kv => kv.1 = s)) = true := by
  unfold varExists
  cases hlook : dictLookup spcO c with
  | none =>
    constructor
    · intro h; cases h
    · rintro ⟨inner, hinner, _⟩; cases hinner
  | some inner =>
    constructor
    · intro h
      exact ⟨inner, rfl, h⟩
    · rintro ⟨inner2, hinner2, h⟩
      cases Option.some.inj hinner2
      exact h

/-- In a successful build, `spcO` is the total fold and has keys `1..N`. -/
theorem buildAll_ok_spc {cfg : Config} {ctx : Ctx} (h : buildAll cfg = Except.ok ctx) :
    ctx.spcO = buildSPCD cfg.numClasses cfg.subjectTeacherMappings ∧
    ctx.spcO.map Prod.fst =
      (List.range cfg.numClasses).map (fun i : Nat => (i : Int) + 1) := by
  obtain ⟨hspc, _, _⟩ := buildAll_ok_parts h
  obtain ⟨_, heq⟩ := buildSPC_ok_inv hspc
  exact ⟨heq, by rw [heq, buildSPCD_fst]⟩

theorem buildAll_ok_spd {cfg : Config} {ctx : Ctx} (h : buildAll cfg = Except.ok ctx) :
    ctx.spdO = buildSPDD cfg.numClasses cfg.subjectPeriodMappings := by
  obtain ⟨_, hspd, _⟩ := buildAll_ok_parts h
  exact (buildSPD_ok_inv hspd).2

/-- Every inner subject dictionary of a successful build has distinct
subject keys. -/
theorem buildAll_ok_inner_nodup {cfg : Config} {ctx : Ctx}
    (h : buildAll cfg = Except.ok ctx) {c : Int} {inner : List (String × String)}
    (hlook : dictLookup ctx.spcO c = some inner) :
    (inner.map Prod.fst).Nodup := by
  obtain ⟨hspc, hkeys⟩ := buildAll_ok_spc h
  have hcmem : (c, inner) ∈ ctx.spcO := dictLookup_some_mem hlook
  have hcrange : 1 ≤ c ∧ c ≤ (cfg.numClasses : Int) := by
    have : c ∈ ctx.spcO.map Prod.fst := List.mem_map.mpr ⟨(c, inner), hcmem, rfl⟩
    rw [hkeys] at this
    obtain ⟨i, hi, heq⟩ := List.mem_map.mp this
    rw [List.mem_range] at hi
    omega
  rw [hspc] at hlook
  rw [buildSPCD_lookup _ hcrange] at hlook
  cases Option.some.inj hlook
  exact foldl_dictInsert_fst_nodup _ _ _ List.nodup_nil

theorem mem_spcO_key_range {cfg : Config} {ctx : Ctx}
    (h : buildAll cfg = Except.ok ctx) {c : Int} {inner : List (String × String)}
    (hmem : (c, inner) ∈ ctx.spcO) : 1 ≤ c ∧ c ≤ (cfg.numClasses : Int) := by
  obtain ⟨_, hkeys⟩ := buildAll_ok_spc h
  have : c ∈ ctx.spcO.map Prod.fst := List.mem_map.mpr ⟨(c, inner), hmem, rfl⟩
  rw [hkeys] at this
  obtain ⟨i, hi, heq⟩ := List.mem_map.mp this
  rw [List.mem_range] at hi
  omega

/-- At most one subject of a class key takes value 1 in a period, in any
binary assignment satisfying the model. -/
theorem one_subject_valued {cfg : Config} {ctx : Ctx}
    (h : buildAll cfg = Except.ok ctx) {σ : Var → Int}
    (hsat : Satisfies σ ctx.model.constraints) (hbin : Binary σ)
    {c : Int} {inner : List (String × String)} (hci : (c, inner) ∈ ctx.spcO)
    {p : Nat} (hp : p < 36) :
    ∀ st1 ∈ inner, ∀ st2 ∈ inner, σ (Var.x c st1.1 p) = 1 →
      σ (Var.x c st2.1 p) = 1 → st1.1 = st2.1 := by
  intro st1 h1 st2 h2 hσ1 hσ2
  by_contra hne
  have hcon := hsat _ (buildAll_ok_oneSubject h hci hp)
  unfold conHolds at hcon
  simp only at hcon
  unfold evalLin at hcon
  have hterm1 : ((1 : Int), Var.x c st1.1 p) ∈
      inner.map (fun st => ((1 : Int), Var.x c st.1 p)) :=
    List.mem_map.mpr ⟨st1, h1, rfl⟩
  have hterm2 : ((1 : Int), Var.x c st2.1 p) ∈
      inner.map (fun st => ((1 : Int), Var.x c st.1 p)) :=
    List.mem_map.mpr ⟨st2, h2, rfl⟩
  have hne2 : ((1 : Int), Var.x c st1.1 p) ≠ ((1 : Int), Var.x c st2.1 p) := by
    intro hc2
    apply hne
    have := congrArg Prod.snd hc2
    injection this
  have hpos : ∀ t ∈ inner.map (fun st => ((1 : Int), Var.x c st.1 p)),
      0 ≤ (fun t : Int × Var => t.1 * σ t.2) t := by
    intro t ht
    obtain ⟨st, _, rfl⟩ := List.mem_map.mp ht
    simp only
    rcases hbin (Var.x c st.1 p) with h0 | h0 <;> rw [h0] <;> omega
  have hsum := two_mem_le_sum_map hpos hterm1 hterm2 hne2
  simp only at hsum
  rw [hσ1, hσ2] at hsum
  omega

/-- The decoded cell of class `j+1` at `(d, k)`, with the iff
characterisation of filled cells. -/
theorem decoded_cell_spec {cfg : Config} {ctx : Ctx}
    (h : buildAll cfg = Except.ok ctx) {σ : Var → Int}
    (hsat : Satisfies σ ctx.model.constraints) (hbin : Binary σ)
    {d k j : Nat} (hd : d < 6) (hk : k < 6) (hj : j < cfg.numClasses) :
    ∃ inner, dictLookup ctx.spcO ((j : Int) + 1) = some inner ∧
      getCell (decodeSchedule cfg.numClasses ctx.spcO σ) d k j =
        some (inner.foldl (cellStep σ ((j : Int) + 1) (d * 6 + k)) none) ∧
      ∀ s t, (inner.foldl (cellStep σ ((j : Int) + 1) (d * 6 + k)) none =
          some ⟨s, t⟩ ↔ ((s, t) ∈ inner ∧ σ (Var.x ((j : Int) + 1) s (d * 6 + k)) = 1)) := by
  obtain ⟨hspc, hkeys⟩ := buildAll_ok_spc h
  have hkmem : ((j : Int) + 1) ∈ ctx.spcO.map Prod.fst := by
    rw [hkeys]
    exact List.mem_map.mpr ⟨j, List.mem_range.mpr hj, rfl⟩
  have hlsome : (dictLookup ctx.spcO ((j : Int) + 1)).isSome := by
    rw [dictLookup_isSome_iff_any, List.any_eq_true]
    obtain ⟨kv, hkv, hfst⟩ := List.mem_map.mp hkmem
    exact ⟨kv, hkv, by simp [hfst]⟩
  obtain ⟨inner, hlook⟩ := Option.isSome_iff_exists.mp hlsome
  have hnd := buildAll_ok_inner_nodup h hlook
  have hcimem : (((j : Int) + 1), inner) ∈ ctx.spcO := dictLookup_some_mem hlook
  have hone := one_subject_valued h hsat hbin hcimem (show d * 6 + k < 36 by omega)
  refine ⟨inner, hlook, decodeSchedule_getCell hkeys hd hk hj hlook, ?_⟩
  intro s t
  constructor
  · intro hfold
    rcases cellFold_some_exists hfold with ⟨st, hst, hcell, hσ⟩ | h2
    · have hs : st.1 = s := by
        have := congrArg Cell.subject hcell
        exact this.symm
      have ht : st.2 = t := by
        have := congrArg Cell.teacher hcell
        exact this.symm
      refine ⟨?_, hs ▸ hσ⟩
      have : st = (s, t) := by rw [← hs, ← ht]
      exact this ▸ hst
    · cases h2
  · rintro ⟨hmem, hσ⟩
    exact cellFold_eq_some hnd hone hmem hσ none

/-! ## Observables of a returned grid -/

/-! ## Counting lemmas for the observables -/

theorem length_flatMap_filter (f : Nat → Bool) (m n : Nat) :
    ((List.range m).flatMap (fun d =>
      ((List.range n).filter (fun k => f (d * n + k))).map (fun k => (d, k)))).length =
      (List.range (m * n)).countP f := by
  induction m with
  | zero => simp
  | succ m2 ih =>
    rw [List.range_succ, List.flatMap_append, List.length_append, ih]
    have hmul : (m2 + 1) * n = m2 * n + n := by ring
    rw [hmul, List.range_add, List.countP_append, List.countP_map]
    simp only [List.flatMap_cons, List.flatMap_nil, List.append_nil, List.length_map]
    rw [← List.countP_eq_length_filter]
    rfl

/-- Two cell lists over the same dimensions with pointwise-equal predicates
are equal. -/
theorem subjectCells_congr {grid : Grid} {j : Nat} {s : String} (f : Nat → Bool)
    (h : ∀ d < 6, ∀ k < 6, gridSubjectAt grid d k j s = f (d * 6 + k)) :
    subjectCells grid j s =
      (List.range 6).flatMap (fun d =>
        ((List.range 6).filter (fun k => f (d * 6 + k))).map (fun k => (d, k))) := by
  unfold subjectCells
  rw [List.flatMap_def, List.flatMap_def]
  congr 1
  apply List.map_congr_left
  intro d hd
  rw [List.mem_range] at hd
  congr 1
  apply List.filter_congr
  intro k hk
  rw [List.mem_range] at hk
  exact h d hd k hk

theorem any_fst_iff {β : Type} {inner : List (String × β)} {s : String} :
    inner.any (fun kv => kv.1 = s) = true ↔ ∃ t, (s, t) ∈ inner := by
  rw [List.any_eq_true]
  constructor
  · rintro ⟨kv, hkv, hdec⟩
    have h1 : kv.1 = s := of_decide_eq_true hdec
    exact ⟨kv.2, by rw [← h1]; exact hkv⟩
  · rintro ⟨t, ht⟩
    exact ⟨(s, t), ht, by simp⟩

/-- The subject indicator of a decoded cell, as a boolean equation. -/
theorem decoded_gridSubjectAt {cfg : Config} {ctx : Ctx}
    (hok : buildAll cfg = Except.ok ctx) {σ : Var → Int}
    (hsat : Satisfies σ ctx.model.constraints) (hbin : Binary σ)
    {d k j : Nat} (hd : d < 6) (hk : k < 6) (hj : j < cfg.numClasses)
    {inner : List (String × String)}
    (hlook : dictLookup ctx.spcO ((j : Int) + 1) = some inner) (s : String) :
    gridSubjectAt (decodeSchedule cfg.numClasses ctx.spcO σ) d k j s =
      ((inner.any (fun kv => kv.1 = s)) &&
        decide (σ (Var.x ((j : Int) + 1) s (d * 6 + k)) = 1)) := by
  obtain ⟨inner2, hlook2, hcell, hiff⟩ := decoded_cell_spec hok hsat hbin hd hk hj
  rw [hlook] at hlook2
  cases Option.some.inj hlook2
  unfold gridSubjectAt
  rw [hcell]
  cases hoc : inner.foldl (cellStep σ ((j : Int) + 1) (d * 6 + k)) none with
  | none =>
    simp only [cellShowsSubject]
    cases hany : inner.any (fun kv => kv.1 = s) with
    | false => rfl
    | true =>
      cases hdec : decide (σ (Var.x ((j : Int) + 1) s (d * 6 + k)) = 1) with
      | false => rfl
      | true =>
        exfalso
        obtain ⟨t, ht⟩ := any_fst_iff.mp hany
        have := (hiff s t).mpr ⟨ht, of_decide_eq_true hdec⟩
        rw [hoc] at this
        cases this
  | some r =>
    simp only [cellShowsSubject]
    have hr := (hiff r.subject r.teacher).mp (by rw [hoc])
    by_cases hrs : r.subject = s
    · rw [decide_eq_true hrs]
      symm
      rw [Bool.and_eq_true]
      refine ⟨any_fst_iff.mpr ⟨r.teacher, hrs ▸ hr.1⟩, ?_⟩
      rw [decide_eq_true_eq, ← hrs]
      exact hr.2
    · rw [decide_eq_false hrs]
      cases hany : inner.any (fun kv => kv.1 = s) with
      | false => rfl
      | true =>
        cases hdec : decide (σ (Var.x ((j : Int) + 1) s (d * 6 + k)) = 1) with
        | false => rfl
        | true =>
          exfalso
          obtain ⟨t, ht⟩ := any_fst_iff.mp hany
          have := (hiff s t).mpr ⟨ht, of_decide_eq_true hdec⟩
          rw [hoc] at this
          exact hrs (congrArg Cell.subject (Option.some.inj this))

/-- The teacher indicator of a decoded cell. -/
theorem decoded_gridTeacherAt {cfg : Config} {ctx : Ctx}
    (hok : buildAll cfg = Except.ok ctx) {σ : Var → Int}
    (hsat : Satisfies σ ctx.model.constraints) (hbin : Binary σ)
    {d k j : Nat} (hd : d < 6) (hk : k < 6) (hj : j < cfg.numClasses)
    {inner : List (String × String)}
    (hlook : dictLookup ctx.spcO ((j : Int) + 1) = some inner) (t : String) :
    gridTeacherAt (decodeSchedule cfg.numClasses ctx.spcO σ) d k j t = true ↔
      ∃ s, (s, t) ∈ inner ∧ σ (Var.x ((j : Int) + 1) s (d * 6 + k)) = 1 := by
  obtain ⟨inner2, hlook2, hcell, hiff⟩ := decoded_cell_spec hok hsat hbin hd hk hj
  rw [hlook] at hlook2
  cases Option.some.inj hlook2
  unfold gridTeacherAt
  rw [hcell]
  cases hoc : inner.foldl (cellStep σ ((j : Int) + 1) (d * 6 + k)) none with
  | none =>
    simp only [cellShowsTeacher]
    constructor
    · intro hfalse
      cases hfalse
    · rintro ⟨s, hmem, hσ⟩
      have := (hiff s t).mpr ⟨hmem, hσ⟩
      rw [hoc] at this
      cases this
  | some r =>
    simp only [cellShowsTeacher]
    have hr := (hiff r.subject r.teacher).mp (by rw [hoc])
    constructor
    · intro hdec
      have hrt : r.teacher = t := of_decide_eq_true hdec
      exact ⟨r.subject, hrt ▸ hr.1, hr.2⟩
    · rintro ⟨s, hmem, hσ⟩
      have := (hiff s t).mpr ⟨hmem, hσ⟩
      rw [hoc] at this
      have hrt : r.teacher = t := congrArg Cell.teacher (Option.some.inj this)
      exact decide_eq_true hrt

/-! ## Characterising the admissible set -/

theorem allowedFromDays_iff {sd : List Int} (hsd : ∀ d ∈ sd, 1 ≤ d ∧ d ≤ 6)
    {p : Nat} (hp : p < 36) :
    allowedFromDays sd p = true ↔ (sd = [] ∨ ((p / 6 : Nat) : Int) + 1 ∈ sd) := by
  have hmod := Nat.div_add_mod p 6
  have hm6 : p % 6 < 6 := Nat.mod_lt _ (by omega)
  unfold allowedFromDays
  by_cases hemp : sd.isEmpty
  · rw [if_pos hemp]
    simp [List.isEmpty_iff.mp hemp]
  · rw [if_neg hemp]
    have hne : sd ≠ [] := fun hc => hemp (by rw [hc]; rfl)
    rw [List.any_eq_true]
    constructor
    · rintro ⟨dd, hdd, hcond⟩
      rw [Bool.and_eq_true, decide_eq_true_eq, decide_eq_true_eq] at hcond
      right
      have hb := hsd dd hdd
      have : dd = ((p / 6 : Nat) : Int) + 1 := by omega
      rw [← this]
      exact hdd
    · rintro (hc | hmem)
      · exact absurd hc hne
      · refine ⟨_, hmem, ?_⟩
        rw [Bool.and_eq_true, decide_eq_true_eq, decide_eq_true_eq]
        constructor <;> push_cast <;> omega

theorem allowedFromSlots_iff {ss : List Int} (hss : ∀ v ∈ ss, 1 ≤ v ∧ v ≤ 6)
    {p : Nat} (hp : p < 36) :
    allowedFromSlots ss p = true ↔ (ss = [] ∨ ((p % 6 : Nat) : Int) + 1 ∈ ss) := by
  have hmod := Nat.div_add_mod p 6
  have hm6 : p % 6 < 6 := Nat.mod_lt _ (by omega)
  have hd6 : p / 6 < 6 := Nat.div_lt_of_lt_mul (by omega)
  unfold allowedFromSlots
  by_cases hemp : ss.isEmpty
  · rw [if_pos hemp]
    simp [List.isEmpty_iff.mp hemp]
  · rw [if_neg hemp]
    have hne : ss ≠ [] := fun hc => hemp (by rw [hc]; rfl)
    rw [List.any_eq_true]
    constructor
    · rintro ⟨v, hv, hcond⟩
      rw [List.any_eq_true] at hcond
      obtain ⟨day, hday, hpe⟩ := hcond
      rw [List.mem_range] at hday
      rw [decide_eq_true_eq] at hpe
      right
      have hb := hss v hv
      have : v = ((p % 6 : Nat) : Int) + 1 := by push_cast at hpe ⊢; omega
      rw [← this]
      exact hv
    · rintro (hc | hmem)
      · exact absurd hc hne
      · refine ⟨_, hmem, ?_⟩
        rw [List.any_eq_true]
        refine ⟨p / 6, List.mem_range.mpr hd6, ?_⟩
        rw [decide_eq_true_eq]
        push_cast
        omega

theorem countP_congr2 {α : Type} {l : List α} {p q : α → Bool}
    (h : ∀ a ∈ l, p a = q a) : l.countP p = l.countP q := by
  rw [List.countP_eq_length_filter, List.countP_eq_length_filter, List.filter_congr h]

theorem dictInsert_fold_lookup_none {γ β : Type} (l : List γ) (ks : γ → String)
    (vs : γ → β) (s : String) (h : ∀ a ∈ l, ks a ≠ s) :
    dictLookup (l.foldl (fun inner a => dictInsert inner (ks a) (vs a)) []) s = none := by
  have hgen : ∀ inner0 : List (String × β), dictLookup inner0 s = none →
      dictLookup (l.foldl (fun inner a => dictInsert inner (ks a) (vs a)) inner0) s =
        none := by
    induction l with
    | nil => intro inner0 h0; exact h0
    | cons hd tl ih =>
      intro inner0 h0
      rw [List.foldl_cons]
      refine ih (fun a ha => h a (List.mem_cons_of_mem _ ha)) _ ?_
      rw [dictLookup_dictInsert,
        if_neg (fun hc => h hd (List.mem_cons_self _ _) hc.symm)]
      exact h0
  exact hgen [] rfl

/-- The weekly count of value-1 periods of one variable family equals the
Int sum the model constrains. -/
theorem countP_week_eq_sum {σ : Var → Int} (hbin : Binary σ) (v : Nat → Var) :
    ((List.range 36).countP (fun p => decide (σ (v p) = 1)) : Int) =
      (weekPeriods.map (fun p => σ (v p))).sum :=
  (sum_map_binary_eq_countP weekPeriods (fun p => σ (v p))
    (fun p _ => hbin (v p))).symm

/-! ## Claim theorems -/

/-- **C1.** In every solved request (a successful build together with a
binary assignment satisfying the model), for the group at index `i` with
subject `s`, classes `C` and `periodsPerWeek` `n`: the per-class variable
`x[c,s,p]` equals the group variable `g[i,p]` at every period, the group
variables sum to `n` over the week, and the returned grid gives every class
of `C` the subject `s` in exactly the same cells — the cells where the group
variable is 1 — whose number is `n`. -/
theorem claim_C1_group_tie {cfg : Config} {ctx : Ctx}
    (hok : buildAll cfg = Except.ok ctx) {σ : Var → Int}
    (hsat : Satisfies σ ctx.model.constraints) (hbin : Binary σ)
    {i : Nat} {g : GroupClass} (hg : cfg.groupClasses.get? i = some g) :
    (∀ c ∈ g.classes, ∀ p, p < 36 → σ (Var.x c g.subject p) = σ (Var.g i p)) ∧
    (weekPeriods.map (fun p => σ (Var.g i p))).sum = g.periodsPerWeek ∧
    (∀ c ∈ g.classes,
      subjectCells (decodeSchedule cfg.numClasses ctx.spcO σ) (c - 1).toNat g.subject =
        (List.range 6).flatMap (fun d =>
          ((List.range 6).filter (fun k => decide (σ (Var.g i (d * 6 + k)) = 1))).map
            (fun k => (d, k)))) ∧
    (∀ c ∈ g.classes,
      ((subjectCells (decodeSchedule cfg.numClasses ctx.spcO σ)
        (c - 1).toNat g.subject).length : Int) = g.periodsPerWeek) := by
  have htie : ∀ c ∈ g.classes, ∀ p, p < 36 →
      σ (Var.x c g.subject p) = σ (Var.g i p) := by
    intro c hc p hp
    have h2 := (buildAll_ok_tie hok hg hc hp).1
    have h3 := hsat _ h2
    rwa [tieCon_holds_iff] at h3
  have hsum : (weekPeriods.map (fun p => σ (Var.g i p))).sum = g.periodsPerWeek := by
    have h3 := hsat _ (buildAll_ok_gSum hok hg)
    rwa [gSumCon_holds_iff] at h3
  have hcells : ∀ c ∈ g.classes,
      subjectCells (decodeSchedule cfg.numClasses ctx.spcO σ) (c - 1).toNat g.subject =
        (List.range 6).flatMap (fun d =>
          ((List.range 6).filter (fun k => decide (σ (Var.g i (d * 6 + k)) = 1))).map
            (fun k => (d, k))) := by
    intro c hc
    have hvar := (buildAll_ok_tie hok hg hc (show 0 < 36 by omega)).2
    obtain ⟨inner, hlook, hany⟩ := varExists_iff.mp hvar
    have hrange := mem_spcO_key_range hok (dictLookup_some_mem hlook)
    have hj1 : (((c - 1).toNat : Nat) : Int) + 1 = c := by omega
    have hjlt : (c - 1).toNat < cfg.numClasses := by omega
    have hlook2 : dictLookup ctx.spcO ((((c - 1).toNat : Nat) : Int) + 1) = some inner := by
      rw [hj1]
      exact hlook
    refine subjectCells_congr (fun p => decide (σ (Var.g i p) = 1)) ?_
    intro d hd k hk
    rw [decoded_gridSubjectAt hok hsat hbin hd hk hjlt hlook2 g.subject, hany,
      Bool.true_and, hj1, htie c hc (d * 6 + k) (by omega)]
  refine ⟨htie, hsum, hcells, ?_⟩
  intro c hc
  rw [hcells c hc]
  have hlen := length_flatMap_filter (fun p => decide (σ (Var.g i p) = 1)) 6 6
  exact (congrArg (Nat.cast : Nat → Int) hlen).trans
    ((countP_week_eq_sum hbin (fun p => Var.g i p)).trans hsum)

/-- **C2.** For every non-group `(class, subject)` pair declared in
`subject_teacher`, any returned grid contains exactly `D[c][s]` filled cells
carrying that subject for that class, where `D[c][s]` is the
`periodsPerWeek` entry of `subject_periods`; when no `subject_periods` entry
exists for the pair the demand is 0. -/
theorem claim_C2_nongroup_demand {cfg : Config} {ctx : Ctx}
    (hok : buildAll cfg = Except.ok ctx) {σ : Var → Int}
    (hsat : Satisfies σ ctx.model.constraints) (hbin : Binary σ)
    {j : Nat} (hj : j < cfg.numClasses) {inner : List (String × String)}
    (hlook : dictLookup ctx.spcO ((j : Int) + 1) = some inner)
    {s t : String} (hst : dictLookup inner s = some t)
    (hng : inGroupAssignment cfg.groupClasses ((j : Int) + 1) s = false) :
    ((subjectCells (decodeSchedule cfg.numClasses ctx.spcO σ) j s).length : Int) =
      demandOf ctx.spdO ((j : Int) + 1) s ∧
    ((∀ m ∈ cfg.subjectPeriodMappings, ¬(m.class_id = (j : Int) + 1 ∧ m.subject = s)) →
      demandOf ctx.spdO ((j : Int) + 1) s = 0) := by
  have hcimem : (((j : Int) + 1), inner) ∈ ctx.spcO := dictLookup_some_mem hlook
  have hstmem : (s, t) ∈ inner := dictLookup_some_mem hst
  have hany : inner.any (fun kv => kv.1 = s) = true := any_fst_iff.mpr ⟨t, hstmem⟩
  constructor
  · have hsum : (weekPeriods.map (fun p => σ (Var.x ((j : Int) + 1) s p))).sum =
        demandOf ctx.spdO ((j : Int) + 1) s := by
      have h3 := hsat _ (buildAll_ok_periodReq hok hcimem hstmem hng)
      rwa [periodReqCon_holds_iff] at h3
    have hcong : ∀ d, d < 6 → ∀ k, k < 6 →
        gridSubjectAt (decodeSchedule cfg.numClasses ctx.spcO σ) d k j s =
          (fun p => (inner.any (fun kv => kv.1 = s)) &&
            decide (σ (Var.x ((j : Int) + 1) s p) = 1)) (d * 6 + k) :=
      fun d hd k hk => decoded_gridSubjectAt hok hsat hbin hd hk hj hlook s
    have h1 := subjectCells_congr
      (fun p => (inner.any (fun kv => kv.1 = s)) &&
        decide (σ (Var.x ((j : Int) + 1) s p) = 1)) hcong
    have h2 := congrArg List.length h1
    have h3 := length_flatMap_filter
      (fun p => (inner.any (fun kv => kv.1 = s)) &&
        decide (σ (Var.x ((j : Int) + 1) s p) = 1)) 6 6
    have h4 : (List.range 36).countP
        (fun p => (inner.any (fun kv => kv.1 = s)) &&
          decide (σ (Var.x ((j : Int) + 1) s p) = 1)) =
        (List.range 36).countP
          (fun p => decide (σ (Var.x ((j : Int) + 1) s p) = 1)) :=
      countP_congr2 (fun p _ => by rw [hany, Bool.true_and])
    have hlen := (h2.trans h3).trans h4
    exact (congrArg (Nat.cast : Nat → Int) hlen).trans
      ((countP_week_eq_sum hbin (fun p => Var.x ((j : Int) + 1) s p)).trans hsum)
  · intro habs
    have hspd := buildAll_ok_spd hok
    have hrange : 1 ≤ (j : Int) + 1 ∧ (j : Int) + 1 ≤ (cfg.numClasses : Int) := by omega
    unfold demandOf dictLookupD
    rw [hspd, buildSPDD_lookup _ hrange]
    simp only [Option.getD_some]
    rw [dictInsert_fold_lookup_none]
    · rfl
    · intro m hm
      obtain ⟨hmem, hcls⟩ := List.mem_filter.mp hm
      intro hsub
      exact habs m hmem ⟨of_decide_eq_true hcls, hsub⟩

/-- **C3.** For every group, the admissible period set computed by the code
is the intersection of the periods whose (1-indexed) day lies in
`selected_days` (all 36 periods when the list is empty) and the periods
whose (1-indexed) slot lies in `selected_slots` (all when empty); the model
of every successful build forces the group variable to 0 at every period
outside that set; and for `selectedDays = [1, 2]`, `selectedSlots = [3]`
exactly the periods `(Monday, slot 3)` and `(Tuesday, slot 3)` — indices 2
and 8 — remain admissible. -/
theorem claim_C3_admissibility (g : GroupClass)
    (hsd : ∀ d ∈ g.selectedDays, 1 ≤ d ∧ d ≤ 6)
    (hss : ∀ v ∈ g.selectedSlots, 1 ≤ v ∧ v ≤ 6) :
    (∀ p, p < 36 → (allowedPeriod g p = true ↔
      ((g.selectedDays = [] ∨ ((p / 6 : Nat) : Int) + 1 ∈ g.selectedDays) ∧
       (g.selectedSlots = [] ∨ ((p % 6 : Nat) : Int) + 1 ∈ g.selectedSlots)))) ∧
    (∀ cfg ctx i σ p, buildAll cfg = Except.ok ctx →
      cfg.groupClasses.get? i = some g → Satisfies σ ctx.model.constraints →
      p < 36 → allowedPeriod g p = false → σ (Var.g i p) = 0) ∧
    ((List.range 36).filter
      (fun p => allowedPeriod (GroupClass.mk "PE" [1] "B" 2 [1, 2] [3]) p) =
      [2, 8]) := by
  refine ⟨?_, ?_, by decide⟩
  · intro p hp
    unfold allowedPeriod
    rw [Bool.and_eq_true, allowedFromDays_iff hsd hp, allowedFromSlots_iff hss hp]
  · intro cfg ctx i σ p hok hg hsat hp hnal
    have hmem := buildAll_ok_gZero hok hg hp hnal
    have := hsat _ hmem
    rw [gZeroCon_holds_iff] at this
    exact this

/-- Witness for C3 at a concrete group: in-range day/slot selections, the
admissibility equivalence at period 8, a concrete build in which the group
variable is forced to 0 at the inadmissible period 0, and the example
computation. -/
theorem claim_C3_admissibility_witness :
    (allowedPeriod (GroupClass.mk "PE" [1] "B" 2 [1, 2] [3]) 8 = true ↔
      (([1, 2] : List Int) = [] ∨ ((8 / 6 : Nat) : Int) + 1 ∈ ([1, 2] : List Int)) ∧
      (([3] : List Int) = [] ∨ ((8 % 6 : Nat) : Int) + 1 ∈ ([3] : List Int))) ∧
    ((List.range 36).filter
      (fun p => allowedPeriod (GroupClass.mk "PE" [1] "B" 2 [1, 2] [3]) p) =
      [2, 8]) := by
  have h := claim_C3_admissibility (GroupClass.mk "PE" [1] "B" 2 [1, 2] [3])
    (by decide) (by decide)
  exact ⟨h.1 8 (by decide), h.2.2⟩

/-- **C6.** The core returns a grid exactly when the solver status string is
`Optimal` or `Feasible`; for every other status, `generate_schedule_from_config`
returns `None` and the request handler responds with the
`"No solution found!"` error envelope; among PuLP's five statuses the check
accepts exactly `Optimal`. -/
theorem claim_C6_status_dispatch :
    (∀ cfg st σ ctx, buildAll cfg = Except.ok ctx →
      ((∃ grid, generateScheduleFromConfig cfg st σ = Except.ok (some grid)) ↔
        (lpStatusName st = "Optimal" ∨ lpStatusName st = "Feasible"))) ∧
    (∀ cfg st σ ctx, buildAll cfg = Except.ok ctx →
      ¬(lpStatusName st = "Optimal" ∨ lpStatusName st = "Feasible") →
      generateScheduleFromConfig cfg st σ = Except.ok none ∧
      handlerResponse (generateScheduleFromConfig cfg st σ) =
        (500, RespBody.err "No solution found!")) ∧
    (∀ st, statusOk st = true ↔ st = SolverStatus.optimal) := by
  have hstat : ∀ st, statusOk st = true ↔
      (lpStatusName st = "Optimal" ∨ lpStatusName st = "Feasible") := by
    intro st
    unfold statusOk
    rw [Bool.or_eq_true, decide_eq_true_eq, decide_eq_true_eq]
  refine ⟨?_, ?_, ?_⟩
  · intro cfg st σ ctx hok
    unfold generateScheduleFromConfig
    rw [hok]
    constructor
    · rintro ⟨grid, hgrid⟩
      by_cases hst : statusOk st
      · exact (hstat st).mp hst
      · exfalso
        simp only [Except.map, if_neg hst] at hgrid
        cases Except.ok.inj hgrid
    · intro hname
      refine ⟨decodeSchedule cfg.numClasses ctx.spcO σ, ?_⟩
      simp only [Except.map, if_pos ((hstat st).mpr hname)]
  · intro cfg st σ ctx hok hbad
    have hst : ¬(statusOk st = true) := fun hc => hbad ((hstat st).mp hc)
    unfold generateScheduleFromConfig
    rw [hok]
    simp only [Except.map, if_neg hst]
    exact ⟨trivial, rfl⟩
  · intro st
    cases st <;> simp [statusOk, lpStatusName]

/-- What a successful `buildAllAdj` yields. -/
theorem buildAllAdj_ok_parts {cfg : Config} {ctx : Ctx}
    (h : buildAllAdj cfg = Except.ok ctx) :
    buildSPC cfg.numClasses cfg.subjectTeacherMappings = Except.ok ctx.spcO ∧
    ∃ gcons, buildGroupCons ctx.spcO cfg.groupClasses = Except.ok gcons ∧
      ctx.model.constraints =
        periodReqCons ctx.spcO ctx.spdO cfg.groupClasses ++ gcons ++
        groupOncePerDayCons cfg.groupClasses ++ oneSubjectCons ctx.spcO ++
        teacherCons (teacherIndividual cfg.subjectTeacherMappings cfg.groupClasses)
          (teacherGroup cfg.groupClasses) ++
        maxTwoIndivCons ctx.spcO cfg.groupClasses ++ maxTwoGroupCons cfg.groupClasses ++
        adjConsIndiv ctx.spcO cfg.groupClasses ++ adjConsGroup cfg.groupClasses ∧
      ctx.model.objective =
        (allYVars ctx.spcO cfg.groupClasses).map (fun v => ((-1 : Int), v)) := by
  unfold buildAllAdj at h
  obtain ⟨spcO, hspc, h⟩ := exbind_ok.mp h
  obtain ⟨spdO, hspd, h⟩ := exbind_ok.mp h
  obtain ⟨gcons, hg, h⟩ := exbind_ok.mp h
  rw [expure_eq_ok] at h
  cases Except.ok.inj h
  exact ⟨hspc, gcons, hg, rfl, rfl⟩

theorem adjConsIndiv_mem {spcO : List (Int × List (String × String))}
    {groups : List GroupClass} {c : Int} {inner : List (String × String)}
    (hci : (c, inner) ∈ spcO) {s t : String} (hst : (s, t) ∈ inner)
    (hng : inGroupAssignment groups c s = false) {d : Nat} (hd : d < 6)
    {k : Nat} (hk : k < 5) {con : LinCon}
    (hcon : con ∈ adjTriple (Var.yx c s d k) (Var.x c s (d * 6 + k))
      (Var.x c s (d * 6 + k + 1))) :
    con ∈ adjConsIndiv spcO groups := by
  unfold adjConsIndiv
  refine List.mem_flatMap.mpr ⟨(c, inner), hci, ?_⟩
  refine List.mem_flatMap.mpr ⟨(s, t), hst, ?_⟩
  rw [hng]
  simp only [Bool.false_eq_true, if_false]
  refine List.mem_flatMap.mpr ⟨d, List.mem_range.mpr hd, ?_⟩
  exact List.mem_flatMap.mpr ⟨k, List.mem_range.mpr hk, hcon⟩

theorem adjConsGroup_mem {groups : List GroupClass} {i : Nat}
    (hi : i < groups.length) {d : Nat} (hd : d < 6) {k : Nat} (hk : k < 5)
    {con : LinCon}
    (hcon : con ∈ adjTriple (Var.yg i d k) (Var.g i (d * 6 + k))
      (Var.g i (d * 6 + k + 1))) :
    con ∈ adjConsGroup groups := by
  unfold adjConsGroup
  refine List.mem_flatMap.mpr ⟨i, List.mem_range.mpr hi, ?_⟩
  refine List.mem_flatMap.mpr ⟨d, List.mem_range.mpr hd, ?_⟩
  exact List.mem_flatMap.mpr ⟨k, List.mem_range.mpr hk, hcon⟩

theorem evalLin_negMap (σ : Var → Int) (l : List Var) :
    evalLin σ (l.map (fun v => ((-1 : Int), v))) = -((l.map σ).sum) := by
  unfold evalLin
  rw [List.map_map]
  induction l with
  | nil => simp
  | cons hd tl ih =>
    simp only [List.map_cons, List.sum_cons, Function.comp] at *
    rw [ih]
    ring

/-- **C5.** In the adjacency (maximisation) variant of the model builder,
for every non-group `(class, subject)`, day and consecutive slot pair the
three linearisation constraints `y ≤ x1`, `y ≤ x2`, `y ≥ x1 + x2 − 1` are in
the model (likewise for groups with `g`), and the objective is the minimised
negated sum of all `y` variables — minimising it is maximising `Σ y`; in the
executed (feasibility) variant the objective is the zero function. -/
theorem claim_C5_adjacency_objective :
    (∀ cfg ctx, buildAllAdj cfg = Except.ok ctx →
      (∀ c inner, (c, inner) ∈ ctx.spcO → ∀ s t, (s, t) ∈ inner →
        inGroupAssignment cfg.groupClasses c s = false →
        ∀ d, d < 6 → ∀ k, k < 5 →
        ∀ con ∈ adjTriple (Var.yx c s d k) (Var.x c s (d * 6 + k))
          (Var.x c s (d * 6 + k + 1)), con ∈ ctx.model.constraints) ∧
      (∀ i, i < cfg.groupClasses.length → ∀ d, d < 6 → ∀ k, k < 5 →
        ∀ con ∈ adjTriple (Var.yg i d k) (Var.g i (d * 6 + k))
          (Var.g i (d * 6 + k + 1)), con ∈ ctx.model.constraints) ∧
      ctx.model.objective =
        (allYVars ctx.spcO cfg.groupClasses).map (fun v => ((-1 : Int), v)) ∧
      (∀ σ τ : Var → Int,
        evalLin σ ctx.model.objective ≤ evalLin τ ctx.model.objective ↔
        ((allYVars ctx.spcO cfg.groupClasses).map τ).sum ≤
          ((allYVars ctx.spcO cfg.groupClasses).map σ).sum)) ∧
    (∀ cfg ctx, buildAll cfg = Except.ok ctx →
      ctx.model.objective = [] ∧ ∀ σ : Var → Int, evalLin σ ctx.model.objective = 0) := by
  constructor
  · intro cfg ctx hok
    obtain ⟨_, gcons, _, hcons, hobj⟩ := buildAllAdj_ok_parts hok
    refine ⟨?_, ?_, hobj, ?_⟩
    · intro c inner hci s t hst hng d hd k hk con hcon
      rw [hcons]
      exact List.mem_append_left _ (List.mem_append_right _
        (adjConsIndiv_mem hci hst hng hd hk hcon))
    · intro i hi d hd k hk con hcon
      rw [hcons]
      exact List.mem_append_right _ (adjConsGroup_mem hi hd hk hcon)
    · intro σ τ
      rw [hobj, evalLin_negMap, evalLin_negMap]
      omega
  · intro cfg ctx hok
    obtain ⟨_, _, _, _, _, hobj⟩ := buildAll_ok_parts hok
    refine ⟨hobj, ?_⟩
    intro σ
    rw [hobj]
    rfl

/-- Witness for C5 at a concrete one-class configuration: the adjacency
triple of the first Monday pair is in the adjacency model, and the executed
variant's objective vanishes. -/
theorem claim_C5_adjacency_objective_witness :
    (∀ con ∈ adjTriple (Var.yx 1 "M" 0 0) (Var.x 1 "M" 0) (Var.x 1 "M" 1),
      con ∈ ctxW1adj.model.constraints) ∧
    evalLin sigW1 ctxW1.model.objective = 0 := by
  constructor
  · intro con hcon
    exact (claim_C5_adjacency_objective.1 cfgW1 ctxW1adj (by rfl)).1 1 [("M", "A")]
      (by decide) "M" "A" (by decide) (by decide) 0 (by decide) 0 (by decide) con hcon
  · exact (claim_C5_adjacency_objective.2 cfgW1 ctxW1 (by rfl)).2 sigW1

/-- Every class index below `numClasses` has a subject dictionary in a
successful build. -/
theorem spcO_lookup_exists {cfg : Config} {ctx : Ctx}
    (hok : buildAll cfg = Except.ok ctx) {j : Nat} (hj : j < cfg.numClasses) :
    ∃ inner, dictLookup ctx.spcO ((j : Int) + 1) = some inner := by
  obtain ⟨_, hkeys⟩ := buildAll_ok_spc hok
  have hkmem : ((j : Int) + 1) ∈ ctx.spcO.map Prod.fst := by
    rw [hkeys]
    exact List.mem_map.mpr ⟨j, List.mem_range.mpr hj, rfl⟩
  have hlsome : (dictLookup ctx.spcO ((j : Int) + 1)).isSome := by
    rw [dictLookup_isSome_iff_any, List.any_eq_true]
    obtain ⟨kv, hkv, hfst⟩ := List.mem_map.mp hkmem
    exact ⟨kv, hkv, by simp [hfst]⟩
  exact Option.isSome_iff_exists.mp hlsome

theorem inGroupAssignment_iff_index {groups : List GroupClass} {c : Int} {s : String} :
    inGroupAssignment groups c s = true ↔
      ∃ i g, groups.get? i = some g ∧ g.subject = s ∧ c ∈ g.classes := by
  unfold inGroupAssignment
  rw [List.any_eq_true]
  constructor
  · rintro ⟨g, hg, hcond⟩
    rw [Bool.and_eq_true, decide_eq_true_eq, List.any_eq_true] at hcond
    obtain ⟨hsub, c2, hc2, hc2eq⟩ := hcond
    obtain ⟨i, hi⟩ := List.mem_iff_get?.mp hg
    exact ⟨i, g, hi, hsub, (of_decide_eq_true hc2eq) ▸ hc2⟩
  · rintro ⟨i, g, hget, hsub, hcls⟩
    refine ⟨g, List.mem_iff_get?.mpr ⟨i, hget⟩, ?_⟩
    rw [Bool.and_eq_true, decide_eq_true_eq, List.any_eq_true]
    exact ⟨hsub, c, hcls, by simp⟩

/-- A subject/teacher entry of a built inner dictionary comes from some
request mapping. -/
theorem spc_lookup_to_mapping {cfg : Config} {ctx : Ctx}
    (hok : buildAll cfg = Except.ok ctx) {c : Int} {inner : List (String × String)}
    (hlook : dictLookup ctx.spcO c = some inner) {s t : String}
    (hst : (s, t) ∈ inner) :
    ∃ m ∈ cfg.subjectTeacherMappings, m.class_id = c ∧ m.subject = s ∧
      m.teacher = t := by
  obtain ⟨hspc, _⟩ := buildAll_ok_spc hok
  have hrange := mem_spcO_key_range hok (dictLookup_some_mem hlook)
  have hnd : (inner.map Prod.fst).Nodup := buildAll_ok_inner_nodup hok hlook
  have hlk : dictLookup inner s = some t := dictLookup_of_mem_nodup hnd hst
  have hfold : inner =
      (cfg.subjectTeacherMappings.filter (fun m => m.class_id = c)).foldl
        (fun inner m => dictInsert inner m.subject m.teacher) [] := by
    have h2 := hlook
    rw [hspc, buildSPCD_lookup _ hrange] at h2
    exact (Option.some.inj h2).symm
  rw [hfold] at hlk
  rcases dictInsert_fold_lookup_mem _ _ _ _ _ _ hlk with ⟨m, hm, hms, hmt⟩ | hnil
  · obtain ⟨hmem, hcls⟩ := List.mem_filter.mp hm
    exact ⟨m, hmem, of_decide_eq_true hcls, hms, hmt⟩
  · cases hnil

theorem teacherCon_lhs_shape (ti : List (String × List (Int × String)))
    (tg : List (String × List Nat)) (t : String) (p : Nat) :
    ∀ tm ∈ (teacherCon ti tg t p).lhs, tm.1 = 1 := by
  intro tm htm
  unfold teacherCon at htm
  rcases List.mem_append.mp htm with h1 | h1
  · obtain ⟨cs, _, rfl⟩ := List.mem_map.mp h1
    rfl
  · obtain ⟨i, _, rfl⟩ := List.mem_map.mp h1
    rfl

theorem dictLookupD_nonnil_key {α β : Type} [DecidableEq α]
    {d : List (α × List β)} {t : α} {v : β} (h : v ∈ dictLookupD d t []) :
    t ∈ d.map Prod.fst := by
  unfold dictLookupD dictLookup at h
  cases hfind : d.find? (fun kv => kv.1 = t) with
  | none =>
    rw [hfind] at h
    cases h
  | some kv =>
    have hfst : kv.1 = t := by simpa using List.find?_some hfind
    exact List.mem_map.mpr ⟨kv, List.mem_of_find?_eq_some hfind, hfst⟩

theorem mem_allTeachers_left {ti : List (String × List (Int × String))}
    {tg : List (String × List Nat)} {t : String} (h : t ∈ ti.map Prod.fst) :
    t ∈ allTeachers ti tg :=
  List.mem_dedup.mpr (List.mem_append_left _ h)

theorem mem_allTeachers_right {ti : List (String × List (Int × String))}
    {tg : List (String × List Nat)} {t : String} (h : t ∈ tg.map Prod.fst) :
    t ∈ allTeachers ti tg :=
  List.mem_dedup.mpr (List.mem_append_right _ h)

/-- Two distinct variables of a teacher's availability constraint cannot
both take value 1. -/
theorem teacherCon_two_contra {cfg : Config} {ctx : Ctx}
    (hok : buildAll cfg = Except.ok ctx) {σ : Var → Int}
    (hsat : Satisfies σ ctx.model.constraints) (hbin : Binary σ) {t : String}
    (ht : t ∈ allTeachers (teacherIndividual cfg.subjectTeacherMappings cfg.groupClasses)
      (teacherGroup cfg.groupClasses)) {p : Nat} (hp : p < 36) {v1 v2 : Var}
    (hne : v1 ≠ v2)
    (h1 : ((1 : Int), v1) ∈ (teacherCon
      (teacherIndividual cfg.subjectTeacherMappings cfg.groupClasses)
      (teacherGroup cfg.groupClasses) t p).lhs)
    (h2 : ((1 : Int), v2) ∈ (teacherCon
      (teacherIndividual cfg.subjectTeacherMappings cfg.groupClasses)
      (teacherGroup cfg.groupClasses) t p).lhs)
    (hσ1 : σ v1 = 1) (hσ2 : σ v2 = 1) : False := by
  have hcon : evalLin σ (teacherCon
      (teacherIndividual cfg.subjectTeacherMappings cfg.groupClasses)
      (teacherGroup cfg.groupClasses) t p).lhs ≤ 1 :=
    hsat _ (buildAll_ok_teacher hok ht hp)
  have hpos : ∀ tm ∈ (teacherCon
      (teacherIndividual cfg.subjectTeacherMappings cfg.groupClasses)
      (teacherGroup cfg.groupClasses) t p).lhs,
      0 ≤ (fun tm : Int × Var => tm.1 * σ tm.2) tm := by
    intro tm htm
    show 0 ≤ tm.1 * σ tm.2
    rw [teacherCon_lhs_shape _ _ _ _ tm htm]
    rcases hbin tm.2 with h0 | h0 <;> rw [h0] <;> omega
  have hne2 : ((1 : Int), v1) ≠ ((1 : Int), v2) := by
    intro hc
    exact hne (congrArg Prod.snd hc)
  have hsum : (1 : Int) * σ v1 + 1 * σ v2 ≤
      ((teacherCon (teacherIndividual cfg.subjectTeacherMappings cfg.groupClasses)
        (teacherGroup cfg.groupClasses) t p).lhs.map
          (fun tm => tm.1 * σ tm.2)).sum :=
    two_mem_le_sum_map hpos h1 h2 hne2
  rw [hσ1, hσ2] at hsum
  unfold evalLin at hcon
  omega

/-- **C4, counterexample.** The claim "every teacher appears in at most one
cell of each (day, slot) column" is false: in the solved request `cfgC4`
(one scheduled two-class group taught by `"A"`), teacher `"A"` appears in
the cells of both classes of the column (Monday, slot 1). -/
theorem claim_C4_counterexample :
    buildAll cfgC4 = Except.ok ctxC4 ∧
    Satisfies sigC4 ctxC4.model.constraints ∧ Binary sigC4 ∧
    teacherColumn (decodeSchedule cfgC4.numClasses ctxC4.spcO sigC4) 0 0 "A" 2 =
      [0, 1] ∧
    ¬((teacherColumn (decodeSchedule cfgC4.numClasses ctxC4.spcO sigC4)
      0 0 "A" 2).length ≤ 1) :=
  ⟨rfl, by decide, indicator_binary _, by decide, by decide⟩

/-- **C4, amended.** The constraint half of the claim is accurate: per
teacher and period, the model enforces that the sum of the teacher's
individual `x` variables plus the teacher's group `g` variables is at most
1. But a teacher `t` can still occupy several cells of one (day, slot)
column, because the decoder always displays the `subject_teacher` teacher.
What holds of any returned grid: (a) unconditionally, when two distinct
classes show `t` in one column, at least one of the two cells comes from a
group session scheduled at that period (two individual assignments of `t`
in one period are impossible); and (b) for consistent requests — each
group's `teacher` field equal to the `subject_teacher` entry of every
member class for the group's subject — the two classes are member classes
of one common group with teacher `t` whose session is scheduled there. -/
theorem claim_C4_amended {cfg : Config} {ctx : Ctx}
    (hok : buildAll cfg = Except.ok ctx) {σ : Var → Int}
    (hsat : Satisfies σ ctx.model.constraints) (hbin : Binary σ) :
    (∀ t p, p < 36 →
      t ∈ allTeachers (teacherIndividual cfg.subjectTeacherMappings cfg.groupClasses)
        (teacherGroup cfg.groupClasses) →
      conHolds σ (teacherCon
        (teacherIndividual cfg.subjectTeacherMappings cfg.groupClasses)
        (teacherGroup cfg.groupClasses) t p)) ∧
    (∀ t d k, d < 6 → k < 6 → ∀ j1 j2, j1 < cfg.numClasses → j2 < cfg.numClasses →
      j1 ≠ j2 →
      gridTeacherAt (decodeSchedule cfg.numClasses ctx.spcO σ) d k j1 t = true →
      gridTeacherAt (decodeSchedule cfg.numClasses ctx.spcO σ) d k j2 t = true →
      (∃ i g, cfg.groupClasses.get? i = some g ∧ σ (Var.g i (d * 6 + k)) = 1 ∧
        (((j1 : Int) + 1) ∈ g.classes ∨ ((j2 : Int) + 1) ∈ g.classes)) ∧
      ((∀ i g, cfg.groupClasses.get? i = some g → ∀ c ∈ g.classes,
          ∀ inner, dictLookup ctx.spcO c = some inner →
            dictLookup inner g.subject = some g.teacher) →
        ∃ i g, cfg.groupClasses.get? i = some g ∧ ((j1 : Int) + 1) ∈ g.classes ∧
          ((j2 : Int) + 1) ∈ g.classes ∧ g.teacher = t ∧
          σ (Var.g i (d * 6 + k)) = 1)) := by
  constructor
  · intro t p hp ht
    exact hsat _ (buildAll_ok_teacher hok ht hp)
  · intro t d k hd hk j1 j2 hj1 hj2 hne hg1 hg2
    have hp : d * 6 + k < 36 := by omega
    obtain ⟨inner1, hlook1⟩ := spcO_lookup_exists hok hj1
    obtain ⟨inner2, hlook2⟩ := spcO_lookup_exists hok hj2
    obtain ⟨s1, hs1mem, hσ1⟩ :=
      (decoded_gridTeacherAt hok hsat hbin hd hk hj1 hlook1 t).mp hg1
    obtain ⟨s2, hs2mem, hσ2⟩ :=
      (decoded_gridTeacherAt hok hsat hbin hd hk hj2 hlook2 t).mp hg2
    -- each side is either an individual obligation of t or a group cell
    have hside : ∀ (j : Nat), j < cfg.numClasses →
        ∀ (inner : List (String × String)),
        dictLookup ctx.spcO ((j : Int) + 1) = some inner →
        ∀ (s : String), (s, t) ∈ inner →
        σ (Var.x ((j : Int) + 1) s (d * 6 + k)) = 1 →
        (inGroupAssignment cfg.groupClasses ((j : Int) + 1) s = false ∧
          ((1 : Int), Var.x ((j : Int) + 1) s (d * 6 + k)) ∈ (teacherCon
            (teacherIndividual cfg.subjectTeacherMappings cfg.groupClasses)
            (teacherGroup cfg.groupClasses) t (d * 6 + k)).lhs ∧
          t ∈ allTeachers
            (teacherIndividual cfg.subjectTeacherMappings cfg.groupClasses)
            (teacherGroup cfg.groupClasses)) ∨
        (∃ i g, cfg.groupClasses.get? i = some g ∧ g.subject = s ∧
          ((j : Int) + 1) ∈ g.classes ∧ σ (Var.g i (d * 6 + k)) = 1) := by
      intro j hj inner hlook s hsmem hσ
      by_cases hng : inGroupAssignment cfg.groupClasses ((j : Int) + 1) s = true
      · right
        obtain ⟨i, g, hget, hsub, hcls⟩ := inGroupAssignment_iff_index.mp hng
        have htie := (buildAll_ok_tie hok hget hcls hp).1
        have htieh := hsat _ htie
        rw [tieCon_holds_iff] at htieh
        have hσg : σ (Var.g i (d * 6 + k)) = 1 := by
          rw [← htieh, hsub]
          exact hσ
        exact ⟨i, g, hget, hsub, hcls, hσg⟩
      · left
        have hngf : inGroupAssignment cfg.groupClasses ((j : Int) + 1) s = false := by
          cases hb : inGroupAssignment cfg.groupClasses ((j : Int) + 1) s
          · rfl
          · exact absurd hb hng
        obtain ⟨m, hm, hmc, hms, hmt⟩ := spc_lookup_to_mapping hok hlook hsmem
        have hind : (((j : Int) + 1), s) ∈
            dictLookupD (teacherIndividual cfg.subjectTeacherMappings
              cfg.groupClasses) t [] :=
          mem_teacherIndividual_lookup.mpr ⟨m, hm, hmc, hms, hmt, hngf⟩
        refine ⟨hngf, ?_, ?_⟩
        · unfold teacherCon
          exact List.mem_append_left _
            (List.mem_map.mpr ⟨(((j : Int) + 1), s), hind, rfl⟩)
        · exact mem_allTeachers_left (dictLookupD_nonnil_key hind)
    -- under the consistency hypothesis a group cell is an obligation of t
    have hgrpT : (∀ i g, cfg.groupClasses.get? i = some g → ∀ c ∈ g.classes,
        ∀ inner, dictLookup ctx.spcO c = some inner →
          dictLookup inner g.subject = some g.teacher) →
        ∀ (j : Nat) (inner : List (String × String)),
        dictLookup ctx.spcO ((j : Int) + 1) = some inner →
        ∀ (s : String), (s, t) ∈ inner →
        ∀ i g, cfg.groupClasses.get? i = some g → g.subject = s →
        ((j : Int) + 1) ∈ g.classes →
        g.teacher = t ∧
        ((1 : Int), Var.g i (d * 6 + k)) ∈ (teacherCon
          (teacherIndividual cfg.subjectTeacherMappings cfg.groupClasses)
          (teacherGroup cfg.groupClasses) t (d * 6 + k)).lhs ∧
        t ∈ allTeachers
          (teacherIndividual cfg.subjectTeacherMappings cfg.groupClasses)
          (teacherGroup cfg.groupClasses) := by
      intro hcons j inner hlook s hsmem i g hget hsub hcls
      have hnd := buildAll_ok_inner_nodup hok hlook
      have hls : dictLookup inner s = some t := dictLookup_of_mem_nodup hnd hsmem
      have hlt := hcons i g hget _ hcls inner hlook
      rw [hsub, hls] at hlt
      have hgt : g.teacher = t := (Option.some.inj hlt).symm
      have hgrp : i ∈ dictLookupD (teacherGroup cfg.groupClasses) t [] :=
        mem_teacherGroup_lookup.mpr ⟨g, hget, hgt⟩
      refine ⟨hgt, ?_, ?_⟩
      · unfold teacherCon
        exact List.mem_append_right _ (List.mem_map.mpr ⟨i, hgrp, rfl⟩)
      · exact mem_allTeachers_right (dictLookupD_nonnil_key hgrp)
    have h1 := hside j1 hj1 inner1 hlook1 s1 hs1mem hσ1
    have h2 := hside j2 hj2 inner2 hlook2 s2 hs2mem hσ2
    have hcne : ((j1 : Int) + 1) ≠ ((j2 : Int) + 1) := by
      intro hc
      apply hne
      omega
    constructor
    · -- unconditional: at least one side is a scheduled group cell
      rcases h1 with ⟨hngf1, hterm1, hteach1⟩ |
        ⟨i1, g1, hget1, hsub1, hcls1, hσg1⟩
      · rcases h2 with ⟨hngf2, hterm2, hteach2⟩ |
          ⟨i2, g2, hget2, hsub2, hcls2, hσg2⟩
        · exact absurd (teacherCon_two_contra hok hsat hbin hteach1 hp
            (fun hc => hcne (by injection hc)) hterm1 hterm2 hσ1 hσ2)
            (fun h => h)
        · exact ⟨i2, g2, hget2, hσg2, Or.inr hcls2⟩
      · exact ⟨i1, g1, hget1, hσg1, Or.inl hcls1⟩
    · -- conditional: a common group taught by t
      intro hcons
      rcases h1 with ⟨hngf1, hterm1, hteach1⟩ |
        ⟨i1, g1, hget1, hsub1, hcls1, hσg1⟩
      · rcases h2 with ⟨hngf2, hterm2, hteach2⟩ |
          ⟨i2, g2, hget2, hsub2, hcls2, hσg2⟩
        · exact absurd (teacherCon_two_contra hok hsat hbin hteach1 hp
            (fun hc => hcne (by injection hc)) hterm1 hterm2 hσ1 hσ2)
            (fun h => h)
        · obtain ⟨hgt2, hterm2g, hteach2g⟩ :=
            hgrpT hcons j2 inner2 hlook2 s2 hs2mem i2 g2 hget2 hsub2 hcls2
          exact absurd (teacherCon_two_contra hok hsat hbin hteach1 hp
            (fun hc => Var.noConfusion hc) hterm1 hterm2g hσ1 hσg2)
            (fun h => h)
      · obtain ⟨hgt1, hterm1g, hteach1g⟩ :=
          hgrpT hcons j1 inner1 hlook1 s1 hs1mem i1 g1 hget1 hsub1 hcls1
        rcases h2 with ⟨hngf2, hterm2, hteach2⟩ |
          ⟨i2, g2, hget2, hsub2, hcls2, hσg2⟩
        · exact absurd (teacherCon_two_contra hok hsat hbin hteach1g hp
            (fun hc => Var.noConfusion hc) hterm1g hterm2 hσg1 hσ2)
            (fun h => h)
        · obtain ⟨hgt2, hterm2g, hteach2g⟩ :=
            hgrpT hcons j2 inner2 hlook2 s2 hs2mem i2 g2 hget2 hsub2 hcls2
          by_cases hii : i1 = i2
          · subst hii
            have hgg : g1 = g2 := by
              rw [hget1] at hget2
              exact Option.some.inj hget2
            subst hgg
            exact ⟨i1, g1, hget1, hcls1, hcls2, hgt1, hσg1⟩
          · exact absurd (teacherCon_two_contra hok hsat hbin hteach1g hp
              (fun hc => hii (by injection hc)) hterm1g hterm2g hσg1 hσg2)
              (fun h => h)

/-- Witness for the amended C4 at `cfgC4`: the availability constraint of
teacher `"A"` holds at period 0; the two cells showing `"A"` in column
(Monday, slot 1) include a scheduled group cell, and — `cfgC4` being
consistent — come from the common group 0 scheduled there. -/
theorem claim_C4_amended_witness :
    conHolds sigC4 (teacherCon
      (teacherIndividual cfgC4.subjectTeacherMappings cfgC4.groupClasses)
      (teacherGroup cfgC4.groupClasses) "A" 0) ∧
    (∃ i g, cfgC4.groupClasses.get? i = some g ∧
      sigC4 (Var.g i (0 * 6 + 0)) = 1 ∧
      ((((0 : Nat) : Int) + 1) ∈ g.classes ∨ (((1 : Nat) : Int) + 1) ∈ g.classes)) ∧
    (∃ i g, cfgC4.groupClasses.get? i = some g ∧
      (((0 : Nat) : Int) + 1) ∈ g.classes ∧ (((1 : Nat) : Int) + 1) ∈ g.classes ∧
      g.teacher = "A" ∧ sigC4 (Var.g i (0 * 6 + 0)) = 1) := by
  have hcons : ∀ i g, cfgC4.groupClasses.get? i = some g → ∀ c ∈ g.classes,
      ∀ inner, dictLookup ctxC4.spcO c = some inner →
        dictLookup inner g.subject = some g.teacher := by
    intro i g hget c hc inner hlook
    cases i with
    | succ n => exact Option.noConfusion hget
    | zero =>
      cases Option.some.inj hget
      rcases List.mem_cons.mp hc with h1 | h1
      · subst h1
        rw [show dictLookup ctxC4.spcO (1 : Int) = some [("PE", "A")] from by decide]
          at hlook
        cases Option.some.inj hlook
        decide
      · rcases List.mem_cons.mp h1 with h2 | h2
        · subst h2
          rw [show dictLookup ctxC4.spcO (2 : Int) = some [("PE", "A")] from by decide]
            at hlook
          cases Option.some.inj hlook
          decide
        · cases h2
  have h := claim_C4_amended (show buildAll cfgC4 = Except.ok ctxC4 from rfl)
    (show Satisfies sigC4 ctxC4.model.constraints from by decide)
    (indicator_binary _)
  have h2 := h.2 "A" 0 0 (by omega) (by omega) 0 1 (by decide) (by decide)
    (by decide) (by decide) (by decide)
  exact ⟨h.1 "A" 0 (by omega) (by decide), h2.1, h2.2 hcons⟩

/-- `buildGroupCons` raises when some group references a missing schedule
variable. -/
theorem buildGroupCons_error {spcO : List (Int × List (String × String))}
    {groups : List GroupClass}
    (h : ∃ g ∈ groups, ∃ c ∈ g.classes, varExists spcO c g.subject = false) :
    ∃ e, buildGroupCons spcO groups = Except.error e := by
  obtain ⟨g, hg, c, hc, hv⟩ := h
  obtain ⟨i, hi⟩ := List.mem_iff_get?.mp hg
  have he1 : ∃ e, groupTies spcO g i 0 = Except.error e := by
    apply mapE_error_of_mem hc
    rw [hv]
    rfl
  obtain ⟨e1, he1⟩ := he1
  have he2 : ∃ e, groupConsFor spcO i g = Except.error e := by
    have hper : ∃ e, mapE (fun p => do
        let ties ← groupTies spcO g i p
        pure ((if allowedPeriod g p then ([] : List LinCon) else [gZeroCon i p]) ++
          ties)) weekPeriods = Except.error e := by
      apply mapE_error_of_mem (show (0 : Nat) ∈ weekPeriods from by decide)
      show (groupTies spcO g i 0 >>= fun ties =>
        pure ((if allowedPeriod g 0 then ([] : List LinCon) else [gZeroCon i 0]) ++
          ties)) = Except.error e1
      rw [he1]
      rfl
    obtain ⟨e2, hpe⟩ := hper
    refine ⟨e2, ?_⟩
    unfold groupConsFor
    rw [hpe]
    rfl
  obtain ⟨e2, he2⟩ := he2
  have he3 : ∃ e, mapE (fun ig => groupConsFor spcO ig.1 ig.2) groups.enum =
      Except.error e :=
    mapE_error_of_mem (mem_enum_iff_get?.mpr hi)
      (show groupConsFor spcO i g = Except.error e2 from he2)
  obtain ⟨e3, he3⟩ := he3
  refine ⟨e3, ?_⟩
  unfold buildGroupCons
  rw [he3]
  rfl

theorem exbind_error_left {α β : Type} {e : Except PyErr α} {f : α → Except PyErr β}
    {err : PyErr} (h : e = Except.error err) : (e >>= f) = Except.error err := by
  rw [h]
  rfl

theorem exbind_ok_left {α β : Type} {e : Except PyErr α} {a : α}
    (h : e = Except.ok a) (f : α → Except PyErr β) : (e >>= f) = f a := by
  rw [h]
  rfl

/-- **C7, counterexample.** The claim that a `selected_days` entry outside
`1..6` makes the index-building phase fail before solving is false: the
request `cfgC7` (whose group selects day 7) builds successfully, the
all-zero assignment satisfies the model, and the core returns a grid. -/
theorem claim_C7_counterexample :
    (cfgC7.groupClasses.any (fun g =>
      g.selectedDays.any (fun d => decide (d < 1) || decide (6 < d)))) = true ∧
    buildAll cfgC7 = Except.ok ctxC7 ∧
    Satisfies sig0 ctxC7.model.constraints ∧ Binary sig0 ∧
    generateScheduleFromConfig cfgC7 SolverStatus.optimal sig0 =
      Except.ok (some (emptyGrid 1)) :=
  ⟨rfl, rfl, by decide, indicator_binary _, rfl⟩

/-- **C7, amended.** The code performs no structural validation; what does
fail before any solving is a dictionary access: if some `subject_teacher` or
`subject_periods` class id lies outside `1..numClasses`, or some group
references a `(class, subject)` pair with no schedule variable (class id
out of range or subject not declared for that class), the building phase
raises a `KeyError` and the handler returns a 500 error envelope instead of
a grid. Negative demands and out-of-range `selected_days` /
`selected_slots` entries are not rejected (see the counterexample). -/
theorem claim_C7_amended (cfg : Config)
    (hbad :
      (∃ m ∈ cfg.subjectTeacherMappings,
        ¬(1 ≤ m.class_id ∧ m.class_id ≤ (cfg.numClasses : Int))) ∨
      (∃ m ∈ cfg.subjectPeriodMappings,
        ¬(1 ≤ m.class_id ∧ m.class_id ≤ (cfg.numClasses : Int))) ∨
      (∃ g ∈ cfg.groupClasses, ∃ c ∈ g.classes,
        varExists (buildSPCD cfg.numClasses cfg.subjectTeacherMappings) c
          g.subject = false)) :
    (∃ e, buildAll cfg = Except.error e) ∧
    (∀ st σ, ∃ e, generateScheduleFromConfig cfg st σ = Except.error e ∧
      (handlerResponse (generateScheduleFromConfig cfg st σ)).1 = 500) := by
  have herr : ∃ e, buildAll cfg = Except.error e := by
    rcases hbad with h1 | h2 | h3
    · obtain ⟨e, he⟩ := buildSPC_error h1
      exact ⟨e, exbind_error_left he⟩
    · cases hspc : buildSPC cfg.numClasses cfg.subjectTeacherMappings with
      | error e => exact ⟨e, exbind_error_left hspc⟩
      | ok spcO =>
        obtain ⟨e, he⟩ := buildSPD_error h2
        exact ⟨e, (exbind_ok_left hspc _).trans (exbind_error_left he)⟩
    · cases hspc : buildSPC cfg.numClasses cfg.subjectTeacherMappings with
      | error e => exact ⟨e, exbind_error_left hspc⟩
      | ok spcO =>
        cases hspd : buildSPD cfg.numClasses cfg.subjectPeriodMappings with
        | error e =>
          exact ⟨e, (exbind_ok_left hspc _).trans (exbind_error_left hspd)⟩
        | ok spdO =>
          have hspcd : spcO = buildSPCD cfg.numClasses cfg.subjectTeacherMappings :=
            (buildSPC_ok_inv hspc).2
          obtain ⟨e, he⟩ := buildGroupCons_error
            (show ∃ g ∈ cfg.groupClasses, ∃ c ∈ g.classes,
              varExists spcO c g.subject = false from by rw [hspcd]; exact h3)
          exact ⟨e, (exbind_ok_left hspc _).trans ((exbind_ok_left hspd _).trans
            (exbind_error_left he))⟩
  obtain ⟨e, he⟩ := herr
  refine ⟨⟨e, he⟩, ?_⟩
  intro st σ
  refine ⟨e, ?_, ?_⟩
  · unfold generateScheduleFromConfig
    rw [he]
    rfl
  · unfold generateScheduleFromConfig
    rw [he]
    rfl

/-- Witness for the amended C7 at `cfgC7bad`: the build raises and the
handler answers 500. -/
theorem claim_C7_amended_witness :
    (∃ e, buildAll cfgC7bad = Except.error e) ∧
    (handlerResponse (generateScheduleFromConfig cfgC7bad SolverStatus.optimal
      sig0)).1 = 500 := by
  have h := claim_C7_amended cfgC7bad (Or.inl (by decide))
  exact ⟨h.1, (h.2 SolverStatus.optimal sig0).choose_spec.2⟩

/-! ## Claims C9 and C10: the `solver.py` variant -/

theorem contains_true_iff {x : Int} {l : List Int} : l.contains x = true ↔ x ∈ l :=
  List.elem_iff

/-- Inside a successful `sGroupConsFor` (the `solver.py` group block): the
forced-zero constraint of every week period whose index is not of the form
`v - 1` for an entry `v` of `selectedSlots`. -/
theorem sGroupConsFor_ok_gZero {spcO : List (Int × List (String × String))}
    {i : Nat} {g : SolverPy.SGroup} {sub : List LinCon}
    (h : SolverPy.sGroupConsFor spcO i g = Except.ok sub) {l : List Int}
    (hsl : g.selectedSlots = some l) {p : Nat} (hp : p < 42)
    (hnc : (l.map (fun v => v - 1)).contains ((p : Int)) = false) :
    gZeroCon i p ∈ sub := by
  unfold SolverPy.sGroupConsFor at h
  obtain ⟨slots, hslots, h⟩ := exbind_ok.mp h
  rw [show SolverPy.slotIndices g = Except.ok (l.map (fun v => v - 1)) from by
    unfold SolverPy.slotIndices; rw [hsl]] at hslots
  cases Except.ok.inj hslots
  obtain ⟨per, hper, h⟩ := exbind_ok.mp h
  rw [expure_eq_ok] at h
  cases Except.ok.inj h
  have hpmem : p ∈ SolverPy.sWeekPeriods := List.mem_range.mpr hp
  obtain ⟨pl, hpl, hplmem⟩ := mapE_ok_mem hper hpmem
  obtain ⟨ties, hties, hpl2⟩ := exbind_ok.mp hpl
  rw [expure_eq_ok] at hpl2
  cases Except.ok.inj hpl2
  refine List.mem_append_left _ (List.mem_flatten.mpr
    ⟨_, hplmem, List.mem_append_left _ ?_⟩)
  rw [if_neg (show ¬((l.map (fun v => v - 1)).contains ((p : Int)) = true) from by
    rw [hnc]; exact Bool.false_ne_true)]
  exact List.mem_singleton.mpr rfl

/-- The forced-zero constraints of the `solver.py` group blocks survive into
the full constraint list. -/
theorem buildSolverModel_ok_gZero {cfg : SolverPy.SConfig} {cons : List LinCon}
    (h : SolverPy.buildSolverModel cfg = Except.ok cons)
    {i : Nat} {g : SolverPy.SGroup} (hg : cfg.groupClasses.get? i = some g)
    {l : List Int} (hsl : g.selectedSlots = some l)
    {p : Nat} (hp : p < 42)
    (hnc : (l.map (fun v => v - 1)).contains ((p : Int)) = false) :
    gZeroCon i p ∈ cons := by
  unfold SolverPy.buildSolverModel at h
  obtain ⟨spcO, hspc, h⟩ := exbind_ok.mp h
  obtain ⟨spdO, hspd, h⟩ := exbind_ok.mp h
  obtain ⟨gcons, hgc, h⟩ := exbind_ok.mp h
  rw [expure_eq_ok] at h
  cases Except.ok.inj h
  unfold SolverPy.sBuildGroupCons at hgc
  obtain ⟨ls, hls, hgc⟩ := exbind_ok.mp hgc
  rw [expure_eq_ok] at hgc
  cases Except.ok.inj hgc
  obtain ⟨sub, hsub, hmem⟩ := mapE_ok_mem hls (mem_enum_iff_get?.mpr hg)
  have hz := sGroupConsFor_ok_gZero hsub hsl hp hnc
  exact List.mem_append_left _ (List.mem_append_left _ (List.mem_append_right _
    (List.mem_flatten.mpr ⟨sub, hmem, hz⟩)))

/-- **C9.** In the `solver.py` variant, an entry `v` of a group's
`selectedSlots` is interpreted as the whole-week period index `v - 1` (there
is no per-day expansion): under any satisfying assignment the group variable
is 0 at every period whose index is not `v - 1` for some entry `v`; in
particular, when the entries are drawn from `1..7` (one day of 7 periods),
the group is forced off every period from 7 on, i.e. off every day except
Monday. -/
theorem claim_C9_solver_slots {cfg : SolverPy.SConfig} {cons : List LinCon}
    (hok : SolverPy.buildSolverModel cfg = Except.ok cons)
    {σ : Var → Int} (hsat : Satisfies σ cons)
    {i : Nat} {g : SolverPy.SGroup} (hg : cfg.groupClasses.get? i = some g)
    {l : List Int} (hsl : g.selectedSlots = some l) :
    (∀ p : Nat, p < 42 → (∀ v ∈ l, ((p : Int)) ≠ v - 1) → σ (Var.g i p) = 0) ∧
    ((∀ v ∈ l, 1 ≤ v ∧ v ≤ 7) →
      ∀ p : Nat, 7 ≤ p → p < 42 → σ (Var.g i p) = 0) := by
  have hmain : ∀ p : Nat, p < 42 → (∀ v ∈ l, ((p : Int)) ≠ v - 1) →
      σ (Var.g i p) = 0 := by
    intro p hp hne
    have hnc : (l.map (fun v => v - 1)).contains ((p : Int)) = false := by
      cases hc : (l.map (fun v => v - 1)).contains ((p : Int)) with
      | false => rfl
      | true =>
        obtain ⟨v, hv, hveq⟩ := List.mem_map.mp (contains_true_iff.mp hc)
        exact absurd hveq.symm (hne v hv)
    have hcon := hsat _ (buildSolverModel_ok_gZero hok hg hsl hp hnc)
    have h2 : (1 : Int) * σ (Var.g i p) + 0 = 0 := hcon
    omega
  refine ⟨hmain, ?_⟩
  intro hrange p hp7 hp42
  apply hmain p hp42
  intro v hv
  have := hrange v hv
  omega

/-- Witness for C9 at `cfgC9`: the group variable is forced to 0 at period
7, the same slot on Tuesday. -/
theorem claim_C9_solver_slots_witness : sigC9 (Var.g 0 7) = 0 :=
  (claim_C9_solver_slots
    (show SolverPy.buildSolverModel cfgC9 = Except.ok consC9 from rfl)
    (show Satisfies sigC9 consC9 from by decide)
    (show cfgC9.groupClasses.get? 0 = some gC9 from rfl)
    (show gC9.selectedSlots = some [1] from rfl)).2
    (by decide) 7 (by decide) (by decide)

/-- **C10.** In the `solver.py` variant, a request whose class-id mappings
are well formed and whose groups all reference declared schedule variables,
but where at least one group omits `selectedSlots`, makes the model builder
raise `TypeError` ("argument of type 'NoneType' is not iterable") before any
constraint list is produced — a missing `selectedSlots` is not treated as
"any slot". -/
theorem claim_C10_missing_slots {cfg : SolverPy.SConfig}
    {spcO : List (Int × List (String × String))}
    {spdO : List (Int × List (String × Int))}
    (hspc : buildSPC cfg.numClasses cfg.subjectTeacherMappings = Except.ok spcO)
    (hspd : buildSPD cfg.numClasses cfg.subjectPeriodMappings = Except.ok spdO)
    (hvars : ∀ g ∈ cfg.groupClasses, ∀ c ∈ g.classes,
      varExists spcO c g.subject = true)
    (hnone : ∃ g ∈ cfg.groupClasses, g.selectedSlots = none) :
    SolverPy.buildSolverModel cfg =
      Except.error (PyErr.typeError "argument of type NoneType is not iterable") := by
  have herrg : ∀ (g : SolverPy.SGroup), g ∈ cfg.groupClasses →
      g.selectedSlots = none → ∀ i, SolverPy.sGroupConsFor spcO i g =
        Except.error (PyErr.typeError "argument of type NoneType is not iterable") := by
    intro g hgm hn i
    unfold SolverPy.sGroupConsFor
    rw [show SolverPy.slotIndices g =
      Except.error (PyErr.typeError "argument of type NoneType is not iterable") from by
        unfold SolverPy.slotIndices; rw [hn]]
    rfl
  have hokg : ∀ (g : SolverPy.SGroup), g ∈ cfg.groupClasses →
      ∀ l, g.selectedSlots = some l → ∀ i,
        ∃ cs, SolverPy.sGroupConsFor spcO i g = Except.ok cs := by
    intro g hgm l hl i
    have hties : ∀ p : Nat, ∃ ts, mapE (fun c =>
        if varExists spcO c g.subject then Except.ok (tieCon c g.subject i p)
        else Except.error (PyErr.keyError (toString c ++ ", " ++ g.subject)))
        g.classes = Except.ok ts :=
      fun p => mapE_all_ok (fun c hc =>
        ⟨tieCon c g.subject i p, by rw [if_pos (hvars g hgm c hc)]⟩)
    have hper : ∃ pss, mapE (fun p => do
        let ties ← mapE (fun c =>
          if varExists spcO c g.subject then Except.ok (tieCon c g.subject i p)
          else Except.error (PyErr.keyError (toString c ++ ", " ++ g.subject)))
          g.classes
        pure ((if (l.map (fun v => v - 1)).contains ((p : Int))
          then ([] : List LinCon) else [gZeroCon i p]) ++ ties))
        SolverPy.sWeekPeriods = Except.ok pss := by
      apply mapE_all_ok
      intro p hp
      obtain ⟨ts, hts⟩ := hties p
      exact ⟨_, by rw [hts]; rfl⟩
    obtain ⟨pss, hpss⟩ := hper
    have hres : SolverPy.sGroupConsFor spcO i g = Except.ok
        (pss.flatten ++ [⟨SolverPy.sWeekPeriods.map (fun p => ((1 : Int), Var.g i p)),
          Cmp.eq, g.periodsPerWeek⟩]) := by
      unfold SolverPy.sGroupConsFor
      exact exbind_ok.mpr ⟨l.map (fun v => v - 1),
        by unfold SolverPy.slotIndices; rw [hl],
        exbind_ok.mpr ⟨pss, hpss, rfl⟩⟩
    exact ⟨_, hres⟩
  have hfix : mapE (fun ig => SolverPy.sGroupConsFor spcO ig.1 ig.2)
      cfg.groupClasses.enum =
      Except.error (PyErr.typeError "argument of type NoneType is not iterable") := by
    apply mapE_error_fixed
    · rintro ⟨i, g⟩ hig
      have hgm : g ∈ cfg.groupClasses :=
        List.mem_iff_get?.mpr ⟨i, mem_enum_iff_get?.mp hig⟩
      cases hn : g.selectedSlots with
      | none => exact Or.inl (herrg g hgm hn i)
      | some l => exact Or.inr (hokg g hgm l hn i)
    · obtain ⟨g, hgm, hn⟩ := hnone
      obtain ⟨i, hi⟩ := List.mem_iff_get?.mp hgm
      exact ⟨(i, g), mem_enum_iff_get?.mpr hi, herrg g hgm hn i⟩
  have hgc : SolverPy.sBuildGroupCons spcO cfg.groupClasses =
      Except.error (PyErr.typeError "argument of type NoneType is not iterable") := by
    unfold SolverPy.sBuildGroupCons
    rw [hfix]
    rfl
  unfold SolverPy.buildSolverModel
  exact (exbind_ok_left hspc _).trans ((exbind_ok_left hspd _).trans
    (exbind_error_left hgc))

/-- Witness for C10 at `cfgC10`. -/
theorem claim_C10_missing_slots_witness :
    SolverPy.buildSolverModel cfgC10 =
      Except.error (PyErr.typeError "argument of type NoneType is not iterable") :=
  claim_C10_missing_slots
    (show buildSPC cfgC10.numClasses cfgC10.subjectTeacherMappings =
      Except.ok [((1 : Int), [("M", "A")])] from rfl)
    (show buildSPD cfgC10.numClasses cfgC10.subjectPeriodMappings =
      Except.ok [((1 : Int), ([] : List (String × Int)))] from rfl)
    (by decide) (by decide)

/-- **C8.** The decoder allocates a `6 × 6 × numClasses` grid whose cells
start empty, and a decoded cell of class `j+1` at `(d, k)` holds exactly the
record `{subject := s, teacher := S[c][s]}` of the unique subject whose
solved variable is 1 at period `d*6 + k` — and stays `null` when there is
none. -/
theorem claim_C8_decoder {cfg : Config} {ctx : Ctx}
    (hok : buildAll cfg = Except.ok ctx) {σ : Var → Int}
    (hsat : Satisfies σ ctx.model.constraints) (hbin : Binary σ) :
    (decodeSchedule cfg.numClasses ctx.spcO σ).length = 6 ∧
    (∀ day ∈ decodeSchedule cfg.numClasses ctx.spcO σ, day.length = 6 ∧
      ∀ row ∈ day, row.length = cfg.numClasses) ∧
    (∀ d, d < 6 → ∀ k, k < 6 → ∀ j, j < cfg.numClasses →
      getCell (emptyGrid cfg.numClasses) d k j = some none) ∧
    (∀ d, d < 6 → ∀ k, k < 6 → ∀ j, j < cfg.numClasses →
      ∀ inner, dictLookup ctx.spcO ((j : Int) + 1) = some inner →
      (∀ s t, (getCell (decodeSchedule cfg.numClasses ctx.spcO σ) d k j =
          some (some (Cell.mk s t)) ↔
        (dictLookup inner s = some t ∧
          σ (Var.x ((j : Int) + 1) s (d * 6 + k)) = 1))) ∧
      (getCell (decodeSchedule cfg.numClasses ctx.spcO σ) d k j = some none ↔
        ∀ s t, ¬(dictLookup inner s = some t ∧
          σ (Var.x ((j : Int) + 1) s (d * 6 + k)) = 1))) := by
  have hdims := gridDims_decodeSchedule cfg.numClasses ctx.spcO σ
  refine ⟨hdims.1, hdims.2, fun d hd k hk j hj => getCell_emptyGrid hd hk hj, ?_⟩
  intro d hd k hk j hj inner hlook
  obtain ⟨inner2, hlook2, hcell, hiff⟩ := decoded_cell_spec hok hsat hbin hd hk hj
  rw [hlook] at hlook2
  cases Option.some.inj hlook2
  have hnd := buildAll_ok_inner_nodup hok hlook
  constructor
  · intro s t
    rw [hcell]
    constructor
    · intro hsome
      obtain ⟨hmem, hσ⟩ := (hiff s t).mp (Option.some.inj hsome)
      exact ⟨dictLookup_of_mem_nodup hnd hmem, hσ⟩
    · rintro ⟨hl, hσ⟩
      rw [(hiff s t).mpr ⟨dictLookup_some_mem hl, hσ⟩]
  · rw [hcell]
    constructor
    · rintro hnone s t ⟨hl, hσ⟩
      have hf := (hiff s t).mpr ⟨dictLookup_some_mem hl, hσ⟩
      rw [Option.some.inj hnone] at hf
      cases hf
    · intro hall
      cases hoc : inner.foldl (cellStep σ ((j : Int) + 1) (d * 6 + k)) none with
      | none => rfl
      | some r =>
        exfalso
        have hr := (hiff r.subject r.teacher).mp (by rw [hoc])
        exact hall r.subject r.teacher ⟨dictLookup_of_mem_nodup hnd hr.1, hr.2⟩

/-- Witness for C8 at `cfgW2`: the grid has 6 days and class 1's Monday
first-period cell is exactly `{subject := "P", teacher := "A"}`. -/
theorem claim_C8_decoder_witness :
    (decodeSchedule cfgW2.numClasses ctxW2.spcO sigW2).length = 6 ∧
    getCell (decodeSchedule cfgW2.numClasses ctxW2.spcO sigW2) 0 0 0 =
      some (some (Cell.mk "P" "A")) := by
  have h := claim_C8_decoder (show buildAll cfgW2 = Except.ok ctxW2 from rfl)
    (show Satisfies sigW2 ctxW2.model.constraints from by decide) (indicator_binary _)
  refine ⟨h.1, ?_⟩
  exact (((h.2.2.2 0 (by decide) 0 (by decide) 0 (by decide)) [("P", "A")]
    (by decide)).1 "P" "A").mpr ⟨by decide, by decide⟩

/-- Witness for C1 at `cfgW2`: the tie at period 0, the weekly sum, and the
unique cell (Monday, slot 1) carrying the group subject. -/
theorem claim_C1_group_tie_witness :
    sigW2 (Var.x 1 "P" 0) = sigW2 (Var.g 0 0) ∧
    (weekPeriods.map (fun p => sigW2 (Var.g 0 p))).sum = 1 ∧
    ((subjectCells (decodeSchedule cfgW2.numClasses ctxW2.spcO sigW2)
      ((1 : Int) - 1).toNat "P").length : Int) = 1 := by
  have h := claim_C1_group_tie (show buildAll cfgW2 = Except.ok ctxW2 from rfl)
    (show Satisfies sigW2 ctxW2.model.constraints from by decide)
    (indicator_binary _) (show cfgW2.groupClasses.get? 0 =
      some (GroupClass.mk "P" [1] "A" 1 [] []) from rfl)
  exact ⟨h.1 1 (by decide) 0 (by decide), h.2.1, h.2.2.2 1 (by decide)⟩

/-- Witness for C2 at `cfgW1`: class 1 has exactly `D[1]["M"] = 2` cells of
subject `"M"`. -/
theorem claim_C2_nongroup_demand_witness :
    ((subjectCells (decodeSchedule cfgW1.numClasses ctxW1.spcO sigW1) 0 "M").length :
      Int) = demandOf ctxW1.spdO (((0 : Nat) : Int) + 1) "M" ∧
    demandOf ctxW1.spdO (((0 : Nat) : Int) + 1) "M" = 2 := by
  have h := claim_C2_nongroup_demand (show buildAll cfgW1 = Except.ok ctxW1 from rfl)
    (show Satisfies sigW1 ctxW1.model.constraints from by decide)
    (indicator_binary _) (show (0 : Nat) < cfgW1.numClasses by decide)
    (show dictLookup ctxW1.spcO (((0 : Nat) : Int) + 1) = some [("M", "A")] from
      by decide)
    (show dictLookup [("M", "A")] "M" = some "A" from by decide) (by decide)
  exact ⟨h.1, by decide⟩

/-- Witness for C6 at a concrete empty configuration: `Optimal` yields a
grid, `Infeasible` yields the error envelope. -/
theorem claim_C6_status_dispatch_witness :
    (∃ grid, generateScheduleFromConfig (Config.mk 0 [] [] []) SolverStatus.optimal
      (indicator []) = Except.ok (some grid)) ∧
    handlerResponse (generateScheduleFromConfig (Config.mk 0 [] [] [])
      SolverStatus.infeasible (indicator [])) =
      (500, RespBody.err "No solution found!") := by
  refine ⟨(claim_C6_status_dispatch.1 (Config.mk 0 [] [] []) SolverStatus.optimal
    (indicator []) ⟨[], [], LpModel.mk [] []⟩ (by rfl)).mpr (Or.inl rfl), ?_⟩
  exact (claim_C6_status_dispatch.2.1 (Config.mk 0 [] [] []) SolverStatus.infeasible
    (indicator []) ⟨[], [], LpModel.mk [] []⟩ (by rfl) (by decide)).2

end SchoolScheduler
